import Mathlib

/-!
# Dolphin: JIT fault resolver and emulated instruction cache

A shallow embedding of

* `EMM::DoFault` (`Source/Core/Core/Src/x64MemTools.cpp`), and
* `PowerPC::InstructionCache` (`Source/Core/Core/Src/PowerPC/PPCCache.cpp`),

followed by theorems about them.

Conventions.  Machine integers are natural numbers; a reduction `% 2 ^ w` is
written wherever the C++ arithmetic can wrap.  C arrays are functions from the
index to the element, so an array store is `Function.update`; an index or a
shift count that would be out of range in C is not excluded by the types, the
theorems bound it where it matters.  Collaborators that live outside these
two files (the JIT code cache, the backpatcher, guest memory, the guest
control register `HID0`) are parameters, and so is what `PPCCache.h` fixes:
whether `FAST_ICACHE` is defined, and the two region bits.

Layout: first every definition (the embedding, then the vocabulary of the
properties, then concrete hosts, builds and memories), then the theorems.
-/

set_option linter.unusedVariables false

/-! ## `x64MemTools.cpp` -/

namespace EMM

/-- The part of the native register context that `DoFault` and its callers
touch: the program counter (`CONTEXT_PC(ctx)`, that is `Rip` or `Eip`) and the
accumulator (`Rax` or `Eax`). -/
structure CONTEXT where
  PC : Nat
  AX : Nat
deriving DecidableEq, Repr

/-- What `DoFault` consumes from the rest of the emulator.
`M_X64` is the build switch, `base` is `(u64)Memory::base`,
`IsInCodeSpace` is `JitInterface::IsInCodeSpace`, and `BackPatch` is
`jit->BackPatch`: it receives the context by pointer, so besides the new
program counter (`0` is the null pointer) it yields the context as it left it. -/
structure Host where
  M_X64 : Bool
  base : Nat
  IsInCodeSpace : Nat → Bool
  BackPatch : Nat → Bool → Nat → CONTEXT → Nat × CONTEXT

/-- The constant added to `memspace_bottom` (lines 86-90). -/
def aperture_size (h : Host) : Nat :=
  if h.M_X64 then 0x100000000 else 0x40000000

/-- The local `memspace_top` of `DoFault`: a `u64` sum, so it wraps. -/
def memspace_top (h : Host) : Nat :=
  (h.base + aperture_size h) % 2 ^ 64

/-- The local `em_address` of `DoFault`: the `u32` cast of the difference. -/
def em_address (h : Host) (bad_address : Nat) : Nat :=
  (bad_address - h.base) % 2 ^ 32

/-- `bool DoFault(u64 bad_address, bool is_write, CONTEXT *ctx)`: the result
and the context afterwards. -/
def DoFault (h : Host) (bad_address : Nat) (is_write : Bool) (ctx : CONTEXT) :
    Bool × CONTEXT :=
  if !h.IsInCodeSpace ctx.PC then
    (false, ctx)
  else
    let memspace_bottom := h.base
    if bad_address < memspace_bottom || bad_address ≥ memspace_top h then
      (false, ctx)
    else
      let r := h.BackPatch ctx.PC is_write (em_address h bad_address) ctx
      let new_pc := r.1
      if new_pc ≠ 0 then
        (true, { r.2 with PC := new_pc })
      else
        (true, r.2)

end EMM

/-! ## `PPCCache.cpp` -/

namespace Common

/-- Modelled from the spec: `Common::swap32` is declared outside the two
source files; the spec says the cached word is "converted from guest
(big-endian) to host byte order", that is, the four bytes of a 32-bit word are
reversed. -/
def swap32 (x : Nat) : Nat :=
  ((x &&& 0xff) <<< 24) ||| ((x &&& 0xff00) <<< 8) |||
    ((x >>> 8) &&& 0xff00) ||| ((x >>> 24) &&& 0xff)

end Common

namespace PowerPC

/-- `const u32 plru_mask[8]`. -/
def plru_mask (t : Nat) : Nat := [11, 11, 19, 19, 37, 37, 69, 69].getD t 0

/-- `const u32 plru_value[8]`. -/
def plru_value (t : Nat) : Nat := [11, 3, 17, 1, 36, 4, 64, 0].getD t 0

/-- What `PPCCache.h` fixes for the build: whether `FAST_ICACHE` is defined
and the two region bits. -/
structure Build where
  FAST_ICACHE : Bool
  ICACHE_EXRAM_BIT : Nat
  ICACHE_VMEM_BIT : Nat

/-- The two bits of the guest register `HID0` that the cache reads. -/
structure HID0 where
  ICE : Bool
  ILOCK : Bool
deriving DecidableEq, Repr

/-- Guest memory as the cache sees it.  `ReadUnchecked_U32 addr` is
`Memory::ReadUnchecked_U32(addr)`; `GetPointer addr k` is the `k`-th 32-bit
word, as the host loads it, at the host pointer `Memory::GetPointer(addr)`. -/
structure Memory where
  ReadUnchecked_U32 : Nat → Nat
  GetPointer : Nat → Nat → Nat

/-- The members of `struct InstructionCache`.  The three lookup tables exist
only when `FAST_ICACHE` is defined; without it no operation reads or writes
them. -/
structure InstructionCache where
  data : Nat → Nat → Nat → Nat
  tags : Nat → Nat → Nat
  plru : Nat → Nat
  valid : Nat → Nat
  way_from_valid : Nat → Nat
  way_from_plru : Nat → Nat
  lookup_table : Nat → Nat
  lookup_table_ex : Nat → Nat
  lookup_table_vmem : Nat → Nat

/-- The loop `while (m & (1<<w)) w++;` of the constructor, started at `w`;
`fuel` bounds the number of iterations. -/
def first_free_way (m : Nat) : Nat → Nat → Nat
  | 0, w => w
  | fuel + 1, w => if m &&& (1 <<< w) ≠ 0 then first_free_way m fuel (w + 1) else w

/-- The nested `if (b[0]) ... else ...` of the constructor (lines 47-71). -/
def plru_way (m : Nat) : Nat :=
  let b := fun i => m &&& (1 <<< i)
  if b 0 ≠ 0 then
    if b 2 ≠ 0 then
      if b 6 ≠ 0 then 7 else 6
    else
      if b 5 ≠ 0 then 5 else 4
  else
    if b 1 ≠ 0 then
      if b 4 ≠ 0 then 3 else 2
    else
      if b 3 ≠ 0 then 1 else 0

/-- `InstructionCache::InstructionCache()`, run on storage `raw`: entries
`0..254` of `way_from_valid` and `0..127` of `way_from_plru` are computed,
nothing else is written.  The shift count of the search loop is an `int`
shift, hence the fuel 32. -/
def InstructionCache.ctor (raw : InstructionCache) : InstructionCache :=
  { raw with
    way_from_valid := fun m => if m < 0xff then first_free_way m 32 0 else raw.way_from_valid m
    way_from_plru := fun m => if m < 128 then plru_way m else raw.way_from_plru m }

/-- `InstructionCache::Reset()`.  (`JitInterface::ClearSafe()` acts on the
code cache, not on this object.) -/
def InstructionCache.Reset (b : Build) (s : InstructionCache) : InstructionCache :=
  let s1 := { s with valid := fun _ => 0, plru := fun _ => 0 }
  if b.FAST_ICACHE then
    { s1 with
      lookup_table := fun _ => 0xff
      lookup_table_ex := fun _ => 0xff
      lookup_table_vmem := fun _ => 0xff }
  else s1

/-- `InstructionCache::Init()`. -/
def InstructionCache.Init (b : Build) (s : InstructionCache) : InstructionCache :=
  InstructionCache.Reset b
    { s with
      data := fun _ _ _ => 0
      tags := fun _ _ => 0
      way_from_valid := fun _ => 0
      way_from_plru := fun _ => 0 }

/-- Lines 108-113 and 164-169: the lookup-table entry of the line tagged
`tag` in `set` becomes `0xff`. -/
def lookup_clear (b : Build) (s : InstructionCache) (cset tag : Nat) : InstructionCache :=
  if tag &&& (b.ICACHE_VMEM_BIT >>> 12) ≠ 0 then
    { s with lookup_table_vmem :=
        Function.update s.lookup_table_vmem ((((tag <<< 7) % 2 ^ 32) ||| cset) &&& 0xfffff) 0xff }
  else if tag &&& (b.ICACHE_EXRAM_BIT >>> 12) ≠ 0 then
    { s with lookup_table_ex :=
        Function.update s.lookup_table_ex ((((tag <<< 7) % 2 ^ 32) ||| cset) &&& 0x1fffff) 0xff }
  else
    { s with lookup_table :=
        Function.update s.lookup_table ((((tag <<< 7) % 2 ^ 32) ||| cset) &&& 0xfffff) 0xff }

/-- Lines 128-139: the lookup-table entry of `addr`. -/
def lookup_read (b : Build) (s : InstructionCache) (addr : Nat) : Nat :=
  if addr &&& b.ICACHE_VMEM_BIT ≠ 0 then
    s.lookup_table_vmem ((addr >>> 5) &&& 0xfffff)
  else if addr &&& b.ICACHE_EXRAM_BIT ≠ 0 then
    s.lookup_table_ex ((addr >>> 5) &&& 0x1fffff)
  else
    s.lookup_table ((addr >>> 5) &&& 0xfffff)

/-- Lines 171-176: the lookup-table entry of `addr` becomes `t` (the tables
hold `u8`). -/
def lookup_write (b : Build) (s : InstructionCache) (addr t : Nat) : InstructionCache :=
  if addr &&& b.ICACHE_VMEM_BIT ≠ 0 then
    { s with lookup_table_vmem :=
        Function.update s.lookup_table_vmem ((addr >>> 5) &&& 0xfffff) (t % 256) }
  else if addr &&& b.ICACHE_EXRAM_BIT ≠ 0 then
    { s with lookup_table_ex :=
        Function.update s.lookup_table_ex ((addr >>> 5) &&& 0x1fffff) (t % 256) }
  else
    { s with lookup_table :=
        Function.update s.lookup_table ((addr >>> 5) &&& 0xfffff) (t % 256) }

/-- Lines 105-114: the loop of `Invalidate` over the ways in the list; the
entry of every valid way is cleared. -/
def clear_ways (b : Build) (cset : Nat) : List Nat → InstructionCache → InstructionCache
  | [], s => s
  | i :: l, s =>
    clear_ways b cset l
      (if s.valid cset &&& (1 <<< i) ≠ 0 then lookup_clear b s cset (s.tags cset i) else s)

/-- `InstructionCache::Invalidate(u32 addr)`.
(`JitInterface::InvalidateICache` acts on the code cache, not on this
object.) -/
def InstructionCache.Invalidate (b : Build) (hid : HID0) (s : InstructionCache)
    (addr : Nat) : InstructionCache :=
  if !hid.ICE then s
  else
    let cset := (addr >>> 5) &&& 0x7f
    let s1 := if b.FAST_ICACHE then clear_ways b cset (List.range 8) s else s
    { s1 with valid := Function.update s1.valid cset 0 }

/-- Lines 141-147: the linear scan of the set, `0xff` when no valid way
carries the tag. -/
def scan_way (s : InstructionCache) (cset tag : Nat) : Nat :=
  ((List.range 8).find?
    (fun i => s.tags cset i == tag && s.valid cset &&& (1 <<< i) != 0)).getD 0xff

/-- Lines 126-148: the way that holds the line of `addr`, `0xff` when it is
not resident: the lookup-table entry under `FAST_ICACHE`, the linear scan
otherwise. -/
def resolve_way (b : Build) (s : InstructionCache) (addr : Nat) : Nat :=
  if b.FAST_ICACHE then lookup_read b s addr
  else scan_way s ((addr >>> 5) &&& 0x7f) (addr >>> 12)

/-- Lines 154-157: the way that a miss fills. -/
def select_way (s : InstructionCache) (cset : Nat) : Nat :=
  if s.valid cset ≠ 0xff then s.way_from_valid (s.valid cset) else s.way_from_plru (s.plru cset)

/-- Lines 159-160: the `memcpy` of the 32-byte line of `addr` into
`data[set][t]`, as eight 32-bit words. -/
def load_line (mem : Memory) (s : InstructionCache) (addr cset t : Nat) : InstructionCache :=
  let p := mem.GetPointer (addr &&& 0xFFFFFFE0)
  { s with data :=
      (Function.update s.data cset
        (Function.update (s.data cset) t
          (fun k => if k < 8 then p k % 2 ^ 32 else s.data cset t k))) }

/-- Lines 159-179: the fill of way `t` of `set` with the line of `addr`. -/
def fill_way (b : Build) (mem : Memory) (s : InstructionCache) (addr cset tag t : Nat) :
    InstructionCache :=
  let s1 := load_line mem s addr cset t
  let s2 :=
    if b.FAST_ICACHE then
      lookup_write b
        (if s1.valid cset &&& (1 <<< t) ≠ 0 then lookup_clear b s1 cset (s1.tags cset t) else s1)
        addr t
    else s1
  { s2 with
    tags := Function.update s2.tags cset (Function.update (s2.tags cset) t tag)
    valid := Function.update s2.valid cset (s2.valid cset ||| (1 <<< t)) }

/-- Lines 181-184: the pseudo-LRU update of `set` for way `t` and the word
returned. -/
def touch_way (s : InstructionCache) (addr cset t : Nat) : Nat × InstructionCache :=
  let s1 :=
    { s with plru :=
        (Function.update s.plru cset
          ((s.plru cset &&& (0xFFFFFFFF - plru_mask t)) ||| plru_value t)) }
  (Common.swap32 (s1.data cset t ((addr >>> 2) &&& 7)), s1)

/-- `u32 InstructionCache::ReadInstruction(u32 addr)`: the word returned and
the cache afterwards. -/
def InstructionCache.ReadInstruction (b : Build) (hid : HID0) (mem : Memory)
    (s : InstructionCache) (addr : Nat) : Nat × InstructionCache :=
  if !hid.ICE then
    (mem.ReadUnchecked_U32 addr, s)
  else
    let cset := (addr >>> 5) &&& 0x7f
    let tag := addr >>> 12
    let t := resolve_way b s addr
    if t = 0xff then
      if hid.ILOCK then
        (mem.ReadUnchecked_U32 addr, s)
      else
        let t := select_way s cset
        touch_way (fill_way b mem s addr cset tag t) addr cset t
    else
      touch_way s addr cset t

/-- The cache states that arise from `Init()` by `Reset`, `Invalidate` and
`ReadInstruction`, with any control flags, any guest memory and any 32-bit
addresses. -/
inductive Reachable (b : Build) : InstructionCache → Prop
  | init (raw : InstructionCache) : Reachable b (InstructionCache.Init b raw)
  | reset {s : InstructionCache} : Reachable b s → Reachable b (InstructionCache.Reset b s)
  | invalidate {s : InstructionCache} (hid : HID0) (addr : Nat) (haddr : addr < 2 ^ 32) :
      Reachable b s → Reachable b (InstructionCache.Invalidate b hid s addr)
  | read {s : InstructionCache} (hid : HID0) (mem : Memory) (addr : Nat)
      (haddr : addr < 2 ^ 32) :
      Reachable b s → Reachable b (InstructionCache.ReadInstruction b hid mem s addr).2

/-- Way `i` of `set` has its valid bit set. -/
def way_valid (s : InstructionCache) (cset i : Nat) : Prop :=
  s.valid cset &&& (1 <<< i) ≠ 0

instance (s : InstructionCache) (cset i : Nat) : Decidable (way_valid s cset i) := by
  unfold way_valid; infer_instance

/-! ### Vocabulary for the properties -/

/-- The way that `ReadInstruction` hands to the pseudo-LRU update (line 182),
or `none` when the read bypasses the cache (cache disabled, or a miss while
locked). -/
def touched_way (b : Build) (hid : HID0) (s : InstructionCache) (addr : Nat) : Option Nat :=
  if !hid.ICE then none
  else if resolve_way b s addr = 0xff then
    if hid.ILOCK then none else some (select_way s ((addr >>> 5) &&& 0x7f))
  else some (resolve_way b s addr)

/-- The way that `ReadInstruction` overwrites (lines 158-179), or `none` when
the read fills nothing. -/
def filled_way (b : Build) (hid : HID0) (s : InstructionCache) (addr : Nat) : Option Nat :=
  if !hid.ICE then none
  else if resolve_way b s addr = 0xff then
    if hid.ILOCK then none else some (select_way s ((addr >>> 5) &&& 0x7f))
  else none

/-- Successive `ReadInstruction` calls, all with the same flags and memory. -/
def read_all (b : Build) (hid : HID0) (mem : Memory) (s : InstructionCache)
    (addrs : List Nat) : InstructionCache :=
  addrs.foldl (fun acc a => (InstructionCache.ReadInstruction b hid mem acc a).2) s

/-- A run of `Reset`, `Invalidate` and `ReadInstruction` calls in which no
`ReadInstruction` addresses `cset`. -/
inductive NoReadOfSet (b : Build) (cset : Nat) : InstructionCache → InstructionCache → Prop
  | none (s : InstructionCache) : NoReadOfSet b cset s s
  | reset {s s1 : InstructionCache} :
      NoReadOfSet b cset s s1 → NoReadOfSet b cset s (InstructionCache.Reset b s1)
  | invalidate {s s1 : InstructionCache} (hid : HID0) (addr : Nat) (haddr : addr < 2 ^ 32) :
      NoReadOfSet b cset s s1 →
      NoReadOfSet b cset s (InstructionCache.Invalidate b hid s1 addr)
  | read {s s1 : InstructionCache} (hid : HID0) (mem : Memory) (addr : Nat)
      (haddr : addr < 2 ^ 32) (hset : (addr >>> 5) &&& 0x7f ≠ cset) :
      NoReadOfSet b cset s s1 →
      NoReadOfSet b cset s (InstructionCache.ReadInstruction b hid mem s1 addr).2

/-- The three lookup tables. -/
inductive Region
  | vmem
  | exram
  | ram
deriving DecidableEq, Repr

/-- The index mask of each lookup table. -/
def Region.mask : Region → Nat
  | .vmem => 0xfffff
  | .exram => 0x1fffff
  | .ram => 0xfffff

/-- The table that `ReadInstruction` consults for `addr`. -/
def region_of_addr (b : Build) (addr : Nat) : Region :=
  if addr &&& b.ICACHE_VMEM_BIT ≠ 0 then .vmem
  else if addr &&& b.ICACHE_EXRAM_BIT ≠ 0 then .exram
  else .ram

/-- The table in which the entry of a line tagged `tag` is cleared. -/
def region_of_tag (b : Build) (tag : Nat) : Region :=
  if tag &&& (b.ICACHE_VMEM_BIT >>> 12) ≠ 0 then .vmem
  else if tag &&& (b.ICACHE_EXRAM_BIT >>> 12) ≠ 0 then .exram
  else .ram

/-- The lookup table of a region. -/
def table (s : InstructionCache) : Region → Nat → Nat
  | .vmem => s.lookup_table_vmem
  | .exram => s.lookup_table_ex
  | .ram => s.lookup_table

/-- The index at which the entry of the line tagged `tag` in `cset` is
cleared. -/
def tag_index (r : Region) (cset tag : Nat) : Nat :=
  (((tag <<< 7) % 2 ^ 32) ||| cset) &&& r.mask

/-- Every lookup-table entry other than the sentinel names a valid way of its
set, and is the entry that invalidating or evicting that way clears. -/
def LookupOK (b : Build) (s : InstructionCache) : Prop :=
  ∀ r i, table s r i ≠ 0xff →
    table s r i < 8 ∧ way_valid s (i &&& 0x7f) (table s r i) ∧
    region_of_tag b (s.tags (i &&& 0x7f) (table s r i)) = r ∧
    tag_index r (i &&& 0x7f) (s.tags (i &&& 0x7f) (table s r i)) = i

/-- The two region bits lie above the twelve address bits that the tag drops.
Only the `FAST_ICACHE` code reads them. -/
def Build.Sane (b : Build) : Prop :=
  b.FAST_ICACHE = true → b.ICACHE_VMEM_BIT % 4096 = 0 ∧ b.ICACHE_EXRAM_BIT % 4096 = 0

/-- The state of the replacement tables and valid masks after `Init()`: both
tables are zero and no way other than way 0 is valid. -/
def Wiped (s : InstructionCache) : Prop :=
  (∀ m, s.way_from_valid m = 0) ∧ (∀ m, s.way_from_plru m = 0) ∧ (∀ c, s.valid c ≤ 1)

/-- The replacement tables are as the constructor computed them. -/
def Intact (s : InstructionCache) : Prop :=
  (∀ m, m < 0xff → s.way_from_valid m = first_free_way m 32 0) ∧
  (∀ m, m < 128 → s.way_from_plru m = plru_way m)

/-- A cache with constructor-built tables whose set `cset` is well formed: an
8-bit valid mask, a 7-bit pseudo-LRU state and, under `FAST_ICACHE`, lookup
entries for the set that name valid ways. -/
def Constructed (b : Build) (s : InstructionCache) (cset : Nat) : Prop :=
  Intact s ∧ s.valid cset < 256 ∧ s.plru cset < 128 ∧
  (b.FAST_ICACHE = true → ∀ addr, (addr >>> 5) &&& 0x7f = cset →
    lookup_read b s addr ≠ 0xff →
      lookup_read b s addr < 8 ∧ way_valid s cset (lookup_read b s addr))

/-! ### Concrete builds, caches and memories -/

/-- A build without `FAST_ICACHE`. -/
def scanBuild : Build :=
  { FAST_ICACHE := false, ICACHE_EXRAM_BIT := 0x10000000, ICACHE_VMEM_BIT := 0x20000000 }

/-- A build with `FAST_ICACHE`. -/
def fastBuild : Build :=
  { FAST_ICACHE := true, ICACHE_EXRAM_BIT := 0x10000000, ICACHE_VMEM_BIT := 0x20000000 }

/-- Storage that is zero everywhere. -/
def zeroCache : InstructionCache :=
  { data := fun _ _ _ => 0
    tags := fun _ _ => 0
    plru := fun _ => 0
    valid := fun _ => 0
    way_from_valid := fun _ => 0
    way_from_plru := fun _ => 0
    lookup_table := fun _ => 0
    lookup_table_ex := fun _ => 0
    lookup_table_vmem := fun _ => 0 }

/-- Cache enabled, not locked. -/
def cacheOn : HID0 := { ICE := true, ILOCK := false }

/-- Cache enabled and locked. -/
def cacheLocked : HID0 := { ICE := true, ILOCK := true }

/-- A guest memory every word of which is `w`. -/
def wordMemory (w : Nat) : Memory :=
  { ReadUnchecked_U32 := fun _ => Common.swap32 w
    GetPointer := fun _ _ => w }

/-- A constructed and reset cache: tables built, no way valid. -/
def freshCache (b : Build) : InstructionCache :=
  InstructionCache.Reset b (InstructionCache.ctor zeroCache)

end PowerPC

namespace EMM

/-- A host whose backpatcher always fails: x64 build, aperture at
`0x100000000`, every program counter inside JIT code space. -/
def failingHost : Host :=
  { M_X64 := true
    base := 0x100000000
    IsInCodeSpace := fun _ => true
    BackPatch := fun _ _ _ ctx => (0, ctx) }

/-- A host whose backpatcher resumes four bytes after the faulting
instruction and whose code space is `[0x4000, 0x8000)`. -/
def patchingHost : Host :=
  { M_X64 := true
    base := 0x100000000
    IsInCodeSpace := fun pc => decide (0x4000 ≤ pc ∧ pc < 0x8000)
    BackPatch := fun pc _ _ ctx => (pc + 4, ctx) }

end EMM

/-! ## Further vocabulary -/

namespace EMM

/-- The arguments of the call `jit->BackPatch(...)` that `DoFault` makes
(line 96): program counter, write flag, guest offset and context; `none` when
`DoFault` returns before the call. -/
def BackPatch_call (h : Host) (bad_address : Nat) (is_write : Bool) (ctx : CONTEXT) :
    Option (Nat × Bool × Nat × CONTEXT) :=
  if !h.IsInCodeSpace ctx.PC then none
  else if bad_address < h.base || bad_address ≥ memspace_top h then none
  else some (ctx.PC, is_write, em_address h bad_address, ctx)

end EMM

namespace PowerPC

/-- The cache states that arise from the state `s0` by `Init`, `Reset`,
`Invalidate` and `ReadInstruction`, with any control flags, any guest memory
and any 32-bit addresses. -/
inductive ReachableFrom (b : Build) (s0 : InstructionCache) : InstructionCache → Prop
  | start : ReachableFrom b s0 s0
  | init {s : InstructionCache} :
      ReachableFrom b s0 s → ReachableFrom b s0 (InstructionCache.Init b s)
  | reset {s : InstructionCache} :
      ReachableFrom b s0 s → ReachableFrom b s0 (InstructionCache.Reset b s)
  | invalidate {s : InstructionCache} (hid : HID0) (addr : Nat) (haddr : addr < 2 ^ 32) :
      ReachableFrom b s0 s → ReachableFrom b s0 (InstructionCache.Invalidate b hid s addr)
  | read {s : InstructionCache} (hid : HID0) (mem : Memory) (addr : Nat)
      (haddr : addr < 2 ^ 32) :
      ReachableFrom b s0 s →
      ReachableFrom b s0 (InstructionCache.ReadInstruction b hid mem s addr).2

/-- Every index that the cache derives from its own state is in range: the
entries of `way_from_valid` (255 of them) and of `way_from_plru` (128) are way
numbers, the valid masks have 8 bits, the pseudo-LRU states 7, and under
`FAST_ICACHE` a lookup-table entry is the sentinel or a way number. -/
def Bounded (b : Build) (s : InstructionCache) : Prop :=
  (∀ m, m < 255 → s.way_from_valid m < 8) ∧
  (∀ p, p < 128 → s.way_from_plru p < 8) ∧
  (∀ c, s.valid c < 256) ∧
  (∀ c, s.plru c < 128) ∧
  (b.FAST_ICACHE = true → ∀ r i, table s r i = 0xff ∨ table s r i < 8)

/-- The line tagged `tag` in `cset` owns the lookup-table entry that
`ReadInstruction` consults for `addr`: same table, same index. -/
def same_entry (b : Build) (addr cset tag : Nat) : Prop :=
  region_of_tag b tag = region_of_addr b addr ∧
  tag_index (region_of_addr b addr) cset tag = (addr >>> 5) &&& (region_of_addr b addr).mask

/-- Every valid way of a set is named by the lookup-table entry that its tag
owns. -/
def LookupFull (b : Build) (s : InstructionCache) : Prop :=
  ∀ c w, c < 128 → way_valid s c w →
    table s (region_of_tag b (s.tags c w))
      (tag_index (region_of_tag b (s.tags c w)) c (s.tags c w)) = w

end PowerPC

/-! ## Theorems: `DoFault` -/

namespace EMM

theorem memspace_top_eq (h : Host) (hmap : h.base + aperture_size h < 2 ^ 64) :
    memspace_top h = h.base + aperture_size h := by
  unfold memspace_top
  exact Nat.mod_eq_of_lt hmap

theorem memspace_top_le (h : Host) : memspace_top h ≤ h.base + aperture_size h := by
  unfold memspace_top
  exact Nat.mod_le _ _

/-- C1, as the code behaves: for a fault inside JIT code space and inside the
aperture, when `BackPatch` returns the null address `DoFault` still returns
`true` (handled), and the context is the one `BackPatch` left. -/
theorem DoFault_null_backpatch_returns_true (h : Host) (bad_address : Nat) (is_write : Bool)
    (ctx : CONTEXT)
    (hpc : h.IsInCodeSpace ctx.PC = true)
    (hlo : h.base ≤ bad_address)
    (hhi : bad_address < h.base + aperture_size h)
    (hmap : h.base + aperture_size h < 2 ^ 64)
    (hnull : (h.BackPatch ctx.PC is_write (em_address h bad_address) ctx).1 = 0) :
    DoFault h bad_address is_write ctx =
      (true, (h.BackPatch ctx.PC is_write (em_address h bad_address) ctx).2) := by
  have htop := memspace_top_eq h hmap
  unfold DoFault
  simp only [hpc, Bool.not_true, Bool.false_eq_true, if_false, hnull, ne_eq, not_true_eq_false]
  rw [if_neg]
  simp only [Bool.or_eq_true, decide_eq_true_eq, not_or, not_lt, ge_iff_le, not_le, htop]
  exact ⟨hlo, hhi⟩

theorem DoFault_null_backpatch_returns_true_witness :
    failingHost.IsInCodeSpace (CONTEXT.mk 0x4000 7).PC = true ∧
    failingHost.base ≤ 0x100000010 ∧
    DoFault failingHost 0x100000010 false (CONTEXT.mk 0x4000 7) = (true, CONTEXT.mk 0x4000 7) :=
  ⟨rfl, by decide,
    DoFault_null_backpatch_returns_true failingHost 0x100000010 false (CONTEXT.mk 0x4000 7)
      rfl (by decide) (by decide) (by decide) rfl⟩

/-- C2: when the program counter is outside JIT code space, or the faulting
address is below `Memory::base`, or at or above `Memory::base` plus the
aperture size (read as the exact sum or as the wrapped `u64` sum that the code
compares with), `DoFault` returns `false` and leaves the context, and so its
program counter, unchanged. -/
theorem DoFault_unhandled_outside (h : Host) (bad_address : Nat) (is_write : Bool)
    (ctx : CONTEXT)
    (hout : h.IsInCodeSpace ctx.PC = false ∨ bad_address < h.base ∨
      h.base + aperture_size h ≤ bad_address ∨ memspace_top h ≤ bad_address) :
    DoFault h bad_address is_write ctx = (false, ctx) := by
  unfold DoFault
  by_cases hpc : h.IsInCodeSpace ctx.PC = true
  · simp only [hpc, Bool.not_true, Bool.false_eq_true, if_false]
    rw [if_pos]
    simp only [Bool.or_eq_true, decide_eq_true_eq, ge_iff_le]
    rcases hout with h1 | h2 | h3 | h4
    · rw [hpc] at h1; cases h1
    · exact Or.inl h2
    · exact Or.inr (le_trans (memspace_top_le h) h3)
    · exact Or.inr h4
  · simp only [Bool.not_eq_true] at hpc
    simp [hpc]

theorem DoFault_unhandled_outside_witness :
    DoFault patchingHost 0x100000010 true (CONTEXT.mk 0x9000 1) = (false, CONTEXT.mk 0x9000 1) ∧
    DoFault patchingHost 0xffffffff true (CONTEXT.mk 0x4000 1) = (false, CONTEXT.mk 0x4000 1) ∧
    DoFault patchingHost 0x200000000 true (CONTEXT.mk 0x4000 1) = (false, CONTEXT.mk 0x4000 1) ∧
    DoFault patchingHost 0x200000000 true (CONTEXT.mk 0x9000 1) = (false, CONTEXT.mk 0x9000 1) :=
  ⟨DoFault_unhandled_outside patchingHost 0x100000010 true (CONTEXT.mk 0x9000 1)
      (Or.inl (by decide)),
    DoFault_unhandled_outside patchingHost 0xffffffff true (CONTEXT.mk 0x4000 1)
      (Or.inr (Or.inl (by decide))),
    DoFault_unhandled_outside patchingHost 0x200000000 true (CONTEXT.mk 0x4000 1)
      (Or.inr (Or.inr (Or.inl (by decide)))),
    DoFault_unhandled_outside patchingHost 0x200000000 true (CONTEXT.mk 0x9000 1)
      (Or.inl (by decide))⟩

/-- C3: for a fault inside JIT code space and inside the aperture (which lies
in the 64-bit address space), when `BackPatch` returns a non-null address `r`,
`DoFault` returns `true` and the program counter of the context is `r`
afterwards. -/
theorem DoFault_handled_resumes_at (h : Host) (bad_address : Nat) (is_write : Bool)
    (ctx : CONTEXT) (r : Nat)
    (hpc : h.IsInCodeSpace ctx.PC = true)
    (hlo : h.base ≤ bad_address)
    (hhi : bad_address < h.base + aperture_size h)
    (hmap : h.base + aperture_size h < 2 ^ 64)
    (hr : (h.BackPatch ctx.PC is_write (em_address h bad_address) ctx).1 = r)
    (hne : r ≠ 0) :
    (DoFault h bad_address is_write ctx).1 = true ∧
      (DoFault h bad_address is_write ctx).2.PC = r := by
  have htop := memspace_top_eq h hmap
  have hin : ¬ ((decide (bad_address < h.base) || decide (bad_address ≥ memspace_top h)) = true) := by
    simp only [Bool.or_eq_true, decide_eq_true_eq, not_or, not_lt, ge_iff_le, not_le, htop]
    exact ⟨hlo, hhi⟩
  unfold DoFault
  simp only [hpc, Bool.not_true, Bool.false_eq_true, if_false, hr, ne_eq, hne, not_false_eq_true,
    if_true, if_neg hin, and_self]

theorem DoFault_handled_resumes_at_witness :
    (DoFault patchingHost 0x100000010 false (CONTEXT.mk 0x4000 7)).1 = true ∧
      (DoFault patchingHost 0x100000010 false (CONTEXT.mk 0x4000 7)).2.PC = 0x4004 :=
  DoFault_handled_resumes_at patchingHost 0x100000010 false (CONTEXT.mk 0x4000 7) 0x4004
    (by decide) (by decide) (by decide) (by decide) rfl (by decide)

end EMM

/-! ## Theorems: the instruction cache -/

namespace PowerPC

open InstructionCache

/-! ### Frame lemmas: what the lookup-table helpers leave alone -/

section frame
variable (b : Build) (s : InstructionCache) (c tag addr t : Nat)

@[simp] theorem lookup_clear_data : (lookup_clear b s c tag).data = s.data := by
  unfold lookup_clear; split_ifs <;> rfl
@[simp] theorem lookup_clear_tags : (lookup_clear b s c tag).tags = s.tags := by
  unfold lookup_clear; split_ifs <;> rfl
@[simp] theorem lookup_clear_plru : (lookup_clear b s c tag).plru = s.plru := by
  unfold lookup_clear; split_ifs <;> rfl
@[simp] theorem lookup_clear_valid : (lookup_clear b s c tag).valid = s.valid := by
  unfold lookup_clear; split_ifs <;> rfl
@[simp] theorem lookup_clear_way_from_valid :
    (lookup_clear b s c tag).way_from_valid = s.way_from_valid := by
  unfold lookup_clear; split_ifs <;> rfl
@[simp] theorem lookup_clear_way_from_plru :
    (lookup_clear b s c tag).way_from_plru = s.way_from_plru := by
  unfold lookup_clear; split_ifs <;> rfl

@[simp] theorem lookup_write_data : (lookup_write b s addr t).data = s.data := by
  unfold lookup_write; split_ifs <;> rfl
@[simp] theorem lookup_write_tags : (lookup_write b s addr t).tags = s.tags := by
  unfold lookup_write; split_ifs <;> rfl
@[simp] theorem lookup_write_plru : (lookup_write b s addr t).plru = s.plru := by
  unfold lookup_write; split_ifs <;> rfl
@[simp] theorem lookup_write_valid : (lookup_write b s addr t).valid = s.valid := by
  unfold lookup_write; split_ifs <;> rfl
@[simp] theorem lookup_write_way_from_valid :
    (lookup_write b s addr t).way_from_valid = s.way_from_valid := by
  unfold lookup_write; split_ifs <;> rfl
@[simp] theorem lookup_write_way_from_plru :
    (lookup_write b s addr t).way_from_plru = s.way_from_plru := by
  unfold lookup_write; split_ifs <;> rfl

end frame

theorem clear_ways_frame (b : Build) (c : Nat) (l : List Nat) :
    ∀ s : InstructionCache,
      (clear_ways b c l s).data = s.data ∧ (clear_ways b c l s).tags = s.tags ∧
      (clear_ways b c l s).plru = s.plru ∧ (clear_ways b c l s).valid = s.valid ∧
      (clear_ways b c l s).way_from_valid = s.way_from_valid ∧
      (clear_ways b c l s).way_from_plru = s.way_from_plru := by
  induction l with
  | nil => intro s; simp [clear_ways]
  | cons i l ih =>
    intro s
    simp only [clear_ways]
    have h := ih (if s.valid c &&& (1 <<< i) ≠ 0 then lookup_clear b s c (s.tags c i) else s)
    by_cases hv : s.valid c &&& (1 <<< i) ≠ 0
    · rw [if_pos hv] at h ⊢; simpa using h
    · rw [if_neg hv] at h ⊢; exact h

/-! ### Fields after each operation -/

section fields
variable (b : Build) (hid : HID0) (mem : Memory) (s : InstructionCache) (addr c t tag : Nat)

theorem Reset_way_from_valid : (Reset b s).way_from_valid = s.way_from_valid := by
  unfold Reset; split_ifs <;> rfl
theorem Reset_way_from_plru : (Reset b s).way_from_plru = s.way_from_plru := by
  unfold Reset; split_ifs <;> rfl
theorem Reset_valid : (Reset b s).valid = fun _ => 0 := by
  unfold Reset; split_ifs <;> rfl
theorem Reset_plru : (Reset b s).plru = fun _ => 0 := by
  unfold Reset; split_ifs <;> rfl
theorem Reset_tags : (Reset b s).tags = s.tags := by
  unfold Reset; split_ifs <;> rfl
theorem Reset_data : (Reset b s).data = s.data := by
  unfold Reset; split_ifs <;> rfl

theorem Init_way_from_valid : (Init b s).way_from_valid = fun _ => 0 := by
  unfold Init; rw [Reset_way_from_valid]
theorem Init_way_from_plru : (Init b s).way_from_plru = fun _ => 0 := by
  unfold Init; rw [Reset_way_from_plru]
theorem Init_valid : (Init b s).valid = fun _ => 0 := by
  unfold Init; rw [Reset_valid]
theorem Init_plru : (Init b s).plru = fun _ => 0 := by
  unfold Init; rw [Reset_plru]
theorem Init_tags : (Init b s).tags = fun _ _ => 0 := by
  unfold Init; rw [Reset_tags]
theorem Init_data : (Init b s).data = fun _ _ _ => 0 := by
  unfold Init; rw [Reset_data]

theorem Invalidate_off (h : hid.ICE = false) : Invalidate b hid s addr = s := by
  unfold Invalidate; simp [h]

theorem Invalidate_way_from_valid :
    (Invalidate b hid s addr).way_from_valid = s.way_from_valid := by
  unfold Invalidate
  have h := clear_ways_frame b ((addr >>> 5) &&& 0x7f) (List.range 8) s
  simp only at h
  split_ifs <;> simp [h]

theorem Invalidate_way_from_plru :
    (Invalidate b hid s addr).way_from_plru = s.way_from_plru := by
  unfold Invalidate
  have h := clear_ways_frame b ((addr >>> 5) &&& 0x7f) (List.range 8) s
  simp only at h
  split_ifs <;> simp [h]

theorem Invalidate_tags : (Invalidate b hid s addr).tags = s.tags := by
  unfold Invalidate
  have h := clear_ways_frame b ((addr >>> 5) &&& 0x7f) (List.range 8) s
  simp only at h
  split_ifs <;> simp [h]

theorem Invalidate_data : (Invalidate b hid s addr).data = s.data := by
  unfold Invalidate
  have h := clear_ways_frame b ((addr >>> 5) &&& 0x7f) (List.range 8) s
  simp only at h
  split_ifs <;> simp [h]

theorem Invalidate_plru : (Invalidate b hid s addr).plru = s.plru := by
  unfold Invalidate
  have h := clear_ways_frame b ((addr >>> 5) &&& 0x7f) (List.range 8) s
  simp only at h
  split_ifs <;> simp [h]

theorem Invalidate_valid (h : hid.ICE = true) :
    (Invalidate b hid s addr).valid = Function.update s.valid ((addr >>> 5) &&& 0x7f) 0 := by
  unfold Invalidate
  have h1 := clear_ways_frame b ((addr >>> 5) &&& 0x7f) (List.range 8) s
  simp only at h1
  simp only [h, Bool.not_true, Bool.false_eq_true, if_false]
  split_ifs <;> simp [h1]

theorem fill_way_way_from_valid :
    (fill_way b mem s addr c tag t).way_from_valid = s.way_from_valid := by
  unfold fill_way load_line; simp only; split_ifs <;> simp
theorem fill_way_way_from_plru :
    (fill_way b mem s addr c tag t).way_from_plru = s.way_from_plru := by
  unfold fill_way load_line; simp only; split_ifs <;> simp
theorem fill_way_plru : (fill_way b mem s addr c tag t).plru = s.plru := by
  unfold fill_way load_line; simp only; split_ifs <;> simp
theorem fill_way_valid :
    (fill_way b mem s addr c tag t).valid =
      Function.update s.valid c (s.valid c ||| (1 <<< t)) := by
  unfold fill_way load_line; simp only; split_ifs <;> simp
theorem fill_way_tags :
    (fill_way b mem s addr c tag t).tags =
      Function.update s.tags c (Function.update (s.tags c) t tag) := by
  unfold fill_way load_line; simp only; split_ifs <;> simp
theorem fill_way_data :
    (fill_way b mem s addr c tag t).data =
      Function.update s.data c (Function.update (s.data c) t
        (fun k => if k < 8 then mem.GetPointer (addr &&& 0xFFFFFFE0) k % 2 ^ 32
          else s.data c t k)) := by
  unfold fill_way load_line; simp only; split_ifs <;> simp

theorem touch_way_state :
    (touch_way s addr c t).2 =
      { s with plru := (Function.update s.plru c
          ((s.plru c &&& (0xFFFFFFFF - plru_mask t)) ||| plru_value t)) } := rfl

theorem touch_way_word :
    (touch_way s addr c t).1 = Common.swap32 (s.data c t ((addr >>> 2) &&& 7)) := rfl

end fields

end PowerPC

namespace PowerPC

open InstructionCache

/-! ### The four paths of `ReadInstruction` -/

section paths
variable (b : Build) (hid : HID0) (mem : Memory) (s : InstructionCache) (addr : Nat)

theorem ReadInstruction_off (h : hid.ICE = false) :
    ReadInstruction b hid mem s addr = (mem.ReadUnchecked_U32 addr, s) := by
  unfold ReadInstruction; simp [h]

theorem ReadInstruction_hit (h : hid.ICE = true) (ht : resolve_way b s addr ≠ 0xff) :
    ReadInstruction b hid mem s addr =
      touch_way s addr ((addr >>> 5) &&& 0x7f) (resolve_way b s addr) := by
  unfold ReadInstruction
  simp only [h, Bool.not_true, Bool.false_eq_true, if_false]
  rw [if_neg ht]

theorem ReadInstruction_locked (h : hid.ICE = true) (ht : resolve_way b s addr = 0xff)
    (hl : hid.ILOCK = true) :
    ReadInstruction b hid mem s addr = (mem.ReadUnchecked_U32 addr, s) := by
  unfold ReadInstruction
  simp only [h, Bool.not_true, Bool.false_eq_true, if_false]
  rw [if_pos ht, if_pos hl]

theorem ReadInstruction_fill (h : hid.ICE = true) (ht : resolve_way b s addr = 0xff)
    (hl : hid.ILOCK = false) :
    ReadInstruction b hid mem s addr =
      touch_way
        (fill_way b mem s addr ((addr >>> 5) &&& 0x7f) (addr >>> 12)
          (select_way s ((addr >>> 5) &&& 0x7f)))
        addr ((addr >>> 5) &&& 0x7f) (select_way s ((addr >>> 5) &&& 0x7f)) := by
  unfold ReadInstruction
  simp only [h, Bool.not_true, Bool.false_eq_true, if_false]
  rw [if_pos ht]
  simp [hl]

/-- Every call of `ReadInstruction` takes one of three shapes as far as the
cache is concerned: it leaves the cache alone, it touches a resident way, or
it fills the selected way and touches it. -/
theorem ReadInstruction_state_cases :
    (ReadInstruction b hid mem s addr).2 = s ∨
    (ReadInstruction b hid mem s addr).2 =
      (touch_way s addr ((addr >>> 5) &&& 0x7f) (resolve_way b s addr)).2 ∨
    (resolve_way b s addr = 0xff ∧
      (ReadInstruction b hid mem s addr).2 =
        (touch_way
          (fill_way b mem s addr ((addr >>> 5) &&& 0x7f) (addr >>> 12)
            (select_way s ((addr >>> 5) &&& 0x7f)))
          addr ((addr >>> 5) &&& 0x7f) (select_way s ((addr >>> 5) &&& 0x7f))).2) := by
  by_cases h : hid.ICE = true
  · by_cases ht : resolve_way b s addr = 0xff
    · by_cases hl : hid.ILOCK = true
      · left; rw [ReadInstruction_locked b hid mem s addr h ht hl]
      · right; right
        simp only [Bool.not_eq_true] at hl
        exact ⟨ht, by rw [ReadInstruction_fill b hid mem s addr h ht hl]⟩
    · right; left; rw [ReadInstruction_hit b hid mem s addr h ht]
  · left
    simp only [Bool.not_eq_true] at h
    rw [ReadInstruction_off b hid mem s addr h]

theorem ReadInstruction_way_from_valid :
    (ReadInstruction b hid mem s addr).2.way_from_valid = s.way_from_valid := by
  rcases ReadInstruction_state_cases b hid mem s addr with h | h | ⟨_, h⟩
  · rw [h]
  · rw [h, touch_way_state]
  · rw [h, touch_way_state]; simp only; rw [fill_way_way_from_valid]

theorem ReadInstruction_way_from_plru :
    (ReadInstruction b hid mem s addr).2.way_from_plru = s.way_from_plru := by
  rcases ReadInstruction_state_cases b hid mem s addr with h | h | ⟨_, h⟩
  · rw [h]
  · rw [h, touch_way_state]
  · rw [h, touch_way_state]; simp only; rw [fill_way_way_from_plru]

end paths

/-! ### The linear scan -/

theorem scan_way_cases (s : InstructionCache) (c tag : Nat) :
    (scan_way s c tag = 0xff ∧ ∀ i, i < 8 → ¬ (s.tags c i = tag ∧ way_valid s c i)) ∨
    (scan_way s c tag < 8 ∧ s.tags c (scan_way s c tag) = tag ∧
      way_valid s c (scan_way s c tag)) := by
  unfold scan_way
  cases hf : (List.range 8).find?
      (fun i => s.tags c i == tag && s.valid c &&& (1 <<< i) != 0) with
  | none =>
    left
    refine ⟨rfl, ?_⟩
    intro i hi hcon
    rw [List.find?_eq_none] at hf
    have := hf i (List.mem_range.mpr hi)
    apply this
    simp only [Bool.and_eq_true, beq_iff_eq, bne_iff_ne, ne_eq]
    exact ⟨hcon.1, hcon.2⟩
  | some w =>
    right
    have hmem := List.mem_of_find?_eq_some hf
    have hp := List.find?_some hf
    simp only [Bool.and_eq_true, beq_iff_eq, bne_iff_ne, ne_eq] at hp
    simp only [Option.getD_some]
    exact ⟨List.mem_range.mp hmem, hp.1, hp.2⟩

theorem scan_way_of_no_valid (s : InstructionCache) (c tag : Nat) (h : s.valid c = 0) :
    scan_way s c tag = 0xff := by
  rcases scan_way_cases s c tag with h1 | h1
  · exact h1.1
  · exfalso
    have := h1.2.2
    unfold way_valid at this
    rw [h] at this
    simp at this

/-! ### After `Init()` only way 0 is ever filled -/

theorem way_valid_zero_of_le_one (s : InstructionCache) (c i : Nat) (h : s.valid c ≤ 1)
    (hv : way_valid s c i) : i = 0 := by
  unfold way_valid at hv
  by_contra hi
  apply hv
  have h01 : s.valid c = 0 ∨ s.valid c = 1 := by omega
  rcases h01 with h0 | h1
  · rw [h0]; simp
  · rw [h1, Nat.one_and_eq_mod_two, Nat.one_shiftLeft]
    obtain ⟨k, rfl⟩ : ∃ k, i = k + 1 := ⟨i - 1, by omega⟩
    rw [pow_succ]; simp

theorem select_way_wiped (s : InstructionCache) (c : Nat) (h : Wiped s) : select_way s c = 0 := by
  unfold select_way
  have := h.2.2 c
  rw [if_pos (by omega)]
  exact h.1 _

theorem Wiped_Init (b : Build) (raw : InstructionCache) : Wiped (Init b raw) := by
  refine ⟨?_, ?_, ?_⟩
  · intro m; rw [Init_way_from_valid]
  · intro m; rw [Init_way_from_plru]
  · intro c; rw [Init_valid]; simp

theorem Wiped_Reset (b : Build) (s : InstructionCache) (h : Wiped s) : Wiped (Reset b s) := by
  refine ⟨?_, ?_, ?_⟩
  · intro m; rw [Reset_way_from_valid]; exact h.1 m
  · intro m; rw [Reset_way_from_plru]; exact h.2.1 m
  · intro c; rw [Reset_valid]; simp

theorem Wiped_Invalidate (b : Build) (hid : HID0) (s : InstructionCache) (addr : Nat)
    (h : Wiped s) : Wiped (Invalidate b hid s addr) := by
  by_cases hice : hid.ICE = true
  · refine ⟨?_, ?_, ?_⟩
    · intro m; rw [Invalidate_way_from_valid]; exact h.1 m
    · intro m; rw [Invalidate_way_from_plru]; exact h.2.1 m
    · intro c
      rw [Invalidate_valid b hid s addr hice]
      by_cases hc : c = (addr >>> 5) &&& 0x7f
      · subst hc; simp
      · rw [Function.update_noteq hc]; exact h.2.2 c
  · simp only [Bool.not_eq_true] at hice
    rw [Invalidate_off b hid s addr hice]; exact h

theorem Wiped_ReadInstruction (b : Build) (hid : HID0) (mem : Memory) (s : InstructionCache)
    (addr : Nat) (h : Wiped s) : Wiped (ReadInstruction b hid mem s addr).2 := by
  refine ⟨?_, ?_, ?_⟩
  · intro m; rw [ReadInstruction_way_from_valid]; exact h.1 m
  · intro m; rw [ReadInstruction_way_from_plru]; exact h.2.1 m
  · intro c
    rcases ReadInstruction_state_cases b hid mem s addr with h1 | h1 | ⟨_, h1⟩
    · rw [h1]; exact h.2.2 c
    · rw [h1, touch_way_state]; exact h.2.2 c
    · rw [h1, touch_way_state]
      simp only
      rw [fill_way_valid, select_way_wiped s _ h]
      by_cases hc : c = (addr >>> 5) &&& 0x7f
      · subst hc
        rw [Function.update_same]
        have := h.2.2 ((addr >>> 5) &&& 0x7f)
        have h01 : s.valid ((addr >>> 5) &&& 0x7f) = 0 ∨ s.valid ((addr >>> 5) &&& 0x7f) = 1 := by
          omega
        rcases h01 with h0 | h0 <;> rw [h0] <;> decide
      · rw [Function.update_noteq hc]; exact h.2.2 c

theorem Reachable_Wiped (b : Build) (s : InstructionCache) (hs : Reachable b s) : Wiped s := by
  induction hs with
  | init raw => exact Wiped_Init b raw
  | reset _ ih => exact Wiped_Reset b _ ih
  | invalidate hid addr _ _ ih => exact Wiped_Invalidate b hid _ addr ih
  | read hid mem addr _ _ ih => exact Wiped_ReadInstruction b hid mem _ addr ih

end PowerPC

namespace PowerPC

open InstructionCache

theorem resolve_way_Init (b : Build) (raw : InstructionCache) (addr : Nat) :
    resolve_way b (Init b raw) addr = 0xff := by
  unfold resolve_way
  by_cases hf : b.FAST_ICACHE = true
  · rw [if_pos hf]
    unfold lookup_read Init Reset
    simp only [hf, if_true]
    split_ifs <;> rfl
  · rw [if_neg hf]
    apply scan_way_of_no_valid
    rw [Init_valid]

theorem and_seven_lt (x : Nat) : x &&& 7 < 8 :=
  Nat.lt_of_le_of_lt Nat.and_le_right (by decide)

/-- C4: in every cache state reachable from `Init()` by `Reset`, `Invalidate`
and `ReadInstruction` (any flags, any guest memory), two ways of one set that
are both valid and carry the same tag are the same way. -/
theorem valid_ways_have_distinct_tags (b : Build) (s : InstructionCache)
    (hs : Reachable b s) (cset i j : Nat)
    (hi : way_valid s cset i) (hj : way_valid s cset j)
    (htag : s.tags cset i = s.tags cset j) : i = j := by
  have hw := (Reachable_Wiped b s hs).2.2 cset
  rw [way_valid_zero_of_le_one s cset i hw hi, way_valid_zero_of_le_one s cset j hw hj]

theorem valid_ways_have_distinct_tags_witness :
    way_valid (ReadInstruction scanBuild cacheOn (wordMemory 1) (Init scanBuild zeroCache) 0).2
      0 0 ∧ (0 : Nat) = 0 :=
  ⟨by decide,
    valid_ways_have_distinct_tags scanBuild
      (ReadInstruction scanBuild cacheOn (wordMemory 1) (Init scanBuild zeroCache) 0).2
      (Reachable.read cacheOn (wordMemory 1) 0 (by decide) (Reachable.init zeroCache))
      0 0 0 (by decide) (by decide) rfl⟩

/-- C5, as the code behaves: after `Init()` and one read of address 0, a read
of `0x1000` misses in a set whose valid mask is 1, and the way it fills is
way 0, whose valid bit is set, although the first clear bit of the mask is
bit 1; after reads of eight addresses `0x1000` apart the valid mask of the set
is still 1, with and without `FAST_ICACHE`. -/
theorem Init_then_every_fill_reuses_way_zero :
    (ReadInstruction scanBuild cacheOn (wordMemory 1) (Init scanBuild zeroCache) 0).2.valid 0 = 1 ∧
    filled_way scanBuild cacheOn
      (ReadInstruction scanBuild cacheOn (wordMemory 1) (Init scanBuild zeroCache) 0).2 0x1000
      = some 0 ∧
    way_valid (ReadInstruction scanBuild cacheOn (wordMemory 1) (Init scanBuild zeroCache) 0).2
      0 0 ∧
    first_free_way 1 32 0 = 1 ∧
    (read_all scanBuild cacheOn (wordMemory 1) (Init scanBuild zeroCache)
      [0, 0x1000, 0x2000, 0x3000, 0x4000, 0x5000, 0x6000, 0x7000]).valid 0 = 1 ∧
    (read_all fastBuild cacheOn (wordMemory 1) (Init fastBuild zeroCache)
      [0, 0x1000, 0x2000, 0x3000, 0x4000, 0x5000, 0x6000, 0x7000]).valid 0 = 1 := by
  refine ⟨?_, ?_, ?_, ?_, ?_, ?_⟩ <;> decide!

/-- C9: after `Init()`, with the cache enabled and not locked,
`ReadInstruction(A)` returns `swap32` of the word at index `(A>>2)&7` of the
line at `A & ~0x1f`; afterwards way 0 is the one valid way of set
`(A>>5)&0x7f`, its tag is `A>>12`, and every other set has valid mask 0. -/
theorem first_read_after_Init (b : Build) (raw : InstructionCache) (hid : HID0)
    (mem : Memory) (A : Nat) (hice : hid.ICE = true) (hlock : hid.ILOCK = false) :
    (ReadInstruction b hid mem (Init b raw) A).1 =
        Common.swap32 (mem.GetPointer (A &&& 0xFFFFFFE0) ((A >>> 2) &&& 7) % 2 ^ 32) ∧
      (∀ i, way_valid (ReadInstruction b hid mem (Init b raw) A).2 ((A >>> 5) &&& 0x7f) i
        ↔ i = 0) ∧
      (ReadInstruction b hid mem (Init b raw) A).2.tags ((A >>> 5) &&& 0x7f) 0 = A >>> 12 ∧
      ∀ c, c ≠ (A >>> 5) &&& 0x7f → (ReadInstruction b hid mem (Init b raw) A).2.valid c = 0 := by
  have hsel := select_way_wiped (Init b raw) ((A >>> 5) &&& 0x7f) (Wiped_Init b raw)
  rw [ReadInstruction_fill b hid mem (Init b raw) A hice (resolve_way_Init b raw A) hlock, hsel]
  have hvalid : (touch_way (fill_way b mem (Init b raw) A ((A >>> 5) &&& 0x7f) (A >>> 12) 0) A
      ((A >>> 5) &&& 0x7f) 0).2.valid = Function.update (fun _ => 0) ((A >>> 5) &&& 0x7f) 1 := by
    rw [touch_way_state]; simp only
    rw [fill_way_valid, Init_valid]
    simp
  refine ⟨?_, ?_, ?_, ?_⟩
  · rw [touch_way_word, fill_way_data]
    simp only [Function.update_same]
    rw [if_pos (and_seven_lt _)]
  · intro i
    unfold way_valid
    rw [hvalid, Function.update_same]
    constructor
    · intro hv
      by_contra hi
      apply hv
      rw [Nat.one_and_eq_mod_two, Nat.one_shiftLeft]
      obtain ⟨k, rfl⟩ : ∃ k, i = k + 1 := ⟨i - 1, by omega⟩
      rw [pow_succ]; simp
    · rintro rfl; decide
  · rw [touch_way_state]; simp only
    rw [fill_way_tags]
    simp only [Function.update_same]
  · intro c hc
    rw [hvalid, Function.update_noteq hc]

theorem first_read_after_Init_witness :
    (ReadInstruction fastBuild cacheOn (wordMemory 0x11223344) (Init fastBuild zeroCache)
        0x80003104).1 = 0x44332211 ∧
      (ReadInstruction fastBuild cacheOn (wordMemory 0x11223344) (Init fastBuild zeroCache)
        0x80003104).2.tags 8 0 = 0x80003 :=
  ⟨by decide,
    (first_read_after_Init fastBuild zeroCache cacheOn (wordMemory 0x11223344) 0x80003104
      rfl rfl).2.2.1⟩

/-- C10, as the code behaves: `Init()` overwrites every entry of
`way_from_valid` and `way_from_plru` with 0, although the constructor computed
`way_from_valid[1] = 1` and `way_from_plru[1] = 4`; `Reset`, `Invalidate` and
`ReadInstruction` do leave both tables as they find them. -/
theorem Init_zeroes_replacement_tables (b : Build) (hid : HID0) (mem : Memory)
    (s : InstructionCache) (addr : Nat) :
    (∀ m, (Init b (InstructionCache.ctor s)).way_from_valid m = 0 ∧
      (Init b (InstructionCache.ctor s)).way_from_plru m = 0) ∧
    (InstructionCache.ctor s).way_from_valid 1 = 1 ∧
    (InstructionCache.ctor s).way_from_plru 1 = 4 ∧
    ((Reset b s).way_from_valid = s.way_from_valid ∧
      (Reset b s).way_from_plru = s.way_from_plru) ∧
    ((Invalidate b hid s addr).way_from_valid = s.way_from_valid ∧
      (Invalidate b hid s addr).way_from_plru = s.way_from_plru) ∧
    ((ReadInstruction b hid mem s addr).2.way_from_valid = s.way_from_valid ∧
      (ReadInstruction b hid mem s addr).2.way_from_plru = s.way_from_plru) := by
  refine ⟨?_, ?_, ?_, ⟨?_, ?_⟩, ⟨?_, ?_⟩, ⟨?_, ?_⟩⟩
  · intro m
    rw [Init_way_from_valid, Init_way_from_plru]
    exact ⟨rfl, rfl⟩
  · rfl
  · rfl
  · exact Reset_way_from_valid b s
  · exact Reset_way_from_plru b s
  · exact Invalidate_way_from_valid b hid s addr
  · exact Invalidate_way_from_plru b hid s addr
  · exact ReadInstruction_way_from_valid b hid mem s addr
  · exact ReadInstruction_way_from_plru b hid mem s addr

end PowerPC

namespace PowerPC

open InstructionCache

/-! ### The constructor's tables -/

theorem first_free_way_spec :
    ∀ m, m < 255 → first_free_way m 32 0 < 8 ∧ m &&& (1 <<< first_free_way m 32 0) = 0 := by
  decide!

theorem plru_way_lt : ∀ p, p < 128 → plru_way p < 8 := by
  decide!

theorem plru_update_spec :
    ∀ p, p < 128 → ∀ t, t < 8 →
      ((p &&& (0xFFFFFFFF - plru_mask t)) ||| plru_value t) < 128 ∧
      plru_way ((p &&& (0xFFFFFFFF - plru_mask t)) ||| plru_value t) ≠ t := by
  decide!

theorem valid_or_bit_spec :
    ∀ m, m < 256 → ∀ t, t < 8 →
      (m ||| (1 <<< t)) < 256 ∧ (m ||| (1 <<< t)) &&& (1 <<< t) ≠ 0 := by
  decide!

theorem bit_lt_of_mask_full : ∀ t, 255 &&& (1 <<< t) ≠ 0 → t < 8 := by
  intro t ht
  by_contra hge
  apply ht
  apply Nat.eq_of_testBit_eq
  intro i
  rw [Nat.testBit_and, Nat.one_shiftLeft, Nat.testBit_two_pow, Nat.zero_testBit]
  by_cases hi : t = i
  · subst hi
    have : (255 : Nat).testBit t = false := by
      apply Nat.testBit_lt_two_pow
      calc 255 < 2 ^ 8 := by decide
        _ ≤ 2 ^ t := Nat.pow_le_pow_right (by decide) (by omega)
    simp [this]
  · simp [hi]

theorem Intact_ctor (raw : InstructionCache) : Intact (InstructionCache.ctor raw) := by
  constructor
  · intro m hm
    show (if m < 0xff then first_free_way m 32 0 else raw.way_from_valid m) = _
    rw [if_pos hm]
  · intro m hm
    show (if m < 128 then plru_way m else raw.way_from_plru m) = _
    rw [if_pos hm]

theorem Intact_of_tables (s s1 : InstructionCache) (h : Intact s)
    (h1 : s1.way_from_valid = s.way_from_valid) (h2 : s1.way_from_plru = s.way_from_plru) :
    Intact s1 := by
  unfold Intact
  rw [h1, h2]
  exact h

/-! ### Reads of other sets -/

theorem ReadInstruction_other_set (b : Build) (hid : HID0) (mem : Memory)
    (s : InstructionCache) (addr c : Nat) (hc : (addr >>> 5) &&& 0x7f ≠ c) :
    (ReadInstruction b hid mem s addr).2.valid c = s.valid c ∧
    (ReadInstruction b hid mem s addr).2.plru c = s.plru c := by
  have hc1 : c ≠ (addr >>> 5) &&& 0x7f := fun h => hc h.symm
  rcases ReadInstruction_state_cases b hid mem s addr with h | h | ⟨_, h⟩
  · rw [h]; exact ⟨rfl, rfl⟩
  · rw [h, touch_way_state]
    exact ⟨rfl, Function.update_noteq hc1 _ _⟩
  · rw [h, touch_way_state]
    simp only
    rw [fill_way_valid, fill_way_plru]
    exact ⟨Function.update_noteq hc1 _ _, Function.update_noteq hc1 _ _⟩

theorem NoReadOfSet_frame (b : Build) (c : Nat) (s1 s2 : InstructionCache)
    (h : NoReadOfSet b c s1 s2) :
    (s2.valid c = 0 ∨ (s2.valid c = s1.valid c ∧ s2.plru c = s1.plru c)) ∧
    s2.way_from_valid = s1.way_from_valid ∧ s2.way_from_plru = s1.way_from_plru := by
  induction h with
  | none => exact ⟨Or.inr ⟨rfl, rfl⟩, rfl, rfl⟩
  | reset _ ih =>
    rw [Reset_valid, Reset_way_from_valid, Reset_way_from_plru]
    exact ⟨Or.inl rfl, ih.2⟩
  | @invalidate s0 hid addr _ _ ih =>
    rw [Invalidate_way_from_valid, Invalidate_way_from_plru, Invalidate_plru]
    refine ⟨?_, ih.2⟩
    by_cases hice : hid.ICE = true
    · rw [Invalidate_valid b hid s0 addr hice]
      by_cases hc : c = (addr >>> 5) &&& 0x7f
      · left; rw [hc, Function.update_same]
      · rw [Function.update_noteq hc]; exact ih.1
    · simp only [Bool.not_eq_true] at hice
      rw [Invalidate_off b hid s0 addr hice]; exact ih.1
  | read hid mem addr _ hset _ ih =>
    obtain ⟨hv, hp⟩ := ReadInstruction_other_set b hid mem _ addr c hset
    rw [hv, hp, ReadInstruction_way_from_valid, ReadInstruction_way_from_plru]
    exact ih

theorem NoReadOfSet_Wiped (b : Build) (c : Nat) (s1 s2 : InstructionCache)
    (h : NoReadOfSet b c s1 s2) (hw : Wiped s1) : Wiped s2 := by
  induction h with
  | none => exact hw
  | reset _ ih => exact Wiped_Reset b _ ih
  | invalidate hid addr _ _ ih => exact Wiped_Invalidate b hid _ addr ih
  | read hid mem addr _ _ _ ih => exact Wiped_ReadInstruction b hid mem _ addr ih

theorem NoReadOfSet_Reachable (b : Build) (c : Nat) (s1 s2 : InstructionCache)
    (h : NoReadOfSet b c s1 s2) (hr : Reachable b s1) : Reachable b s2 := by
  induction h with
  | none => exact hr
  | reset _ ih => exact Reachable.reset ih
  | invalidate hid addr haddr _ ih => exact Reachable.invalidate hid addr haddr ih
  | read hid mem addr haddr _ _ ih => exact Reachable.read hid mem addr haddr ih

theorem select_way_congr (s1 s2 : InstructionCache) (c : Nat)
    (hv : s2.valid c = s1.valid c) (hp : s2.plru c = s1.plru c)
    (h1 : s2.way_from_valid = s1.way_from_valid) (h2 : s2.way_from_plru = s1.way_from_plru) :
    select_way s2 c = select_way s1 c := by
  unfold select_way
  rw [hv, hp, h1, h2]

theorem filled_way_eq_some (b : Build) (hid : HID0) (s : InstructionCache) (addr v : Nat)
    (h : filled_way b hid s addr = some v) :
    hid.ICE = true ∧ resolve_way b s addr = 0xff ∧ hid.ILOCK = false ∧
      v = select_way s ((addr >>> 5) &&& 0x7f) := by
  unfold filled_way at h
  by_cases h1 : hid.ICE = true
  · by_cases h2 : resolve_way b s addr = 0xff
    · by_cases h3 : hid.ILOCK = true
      · simp [h1, h2, h3] at h
      · simp only [Bool.not_eq_true] at h3
        simp [h1, h2, h3] at h
        exact ⟨h1, h2, h3, h.symm⟩
    · simp [h1, h2] at h
  · simp only [Bool.not_eq_true] at h1
    simp [h1] at h

/-- `filled_way` names the way that `ReadInstruction` fills. -/
theorem filled_way_spec (b : Build) (hid : HID0) (mem : Memory) (s : InstructionCache)
    (addr v : Nat) (h : filled_way b hid s addr = some v) :
    ReadInstruction b hid mem s addr =
      touch_way (fill_way b mem s addr ((addr >>> 5) &&& 0x7f) (addr >>> 12) v)
        addr ((addr >>> 5) &&& 0x7f) v := by
  obtain ⟨h1, h2, h3, h4⟩ := filled_way_eq_some b hid s addr v h
  rw [ReadInstruction_fill b hid mem s addr h1 h2 h3, h4]

/-- `touched_way` names the way whose pseudo-LRU bits `ReadInstruction`
updates; when it is `none` the read leaves the cache alone and returns the raw
guest-memory read. -/
theorem touched_way_spec (b : Build) (hid : HID0) (mem : Memory) (s : InstructionCache)
    (addr : Nat) :
    (touched_way b hid s addr = none ∧
      ReadInstruction b hid mem s addr = (mem.ReadUnchecked_U32 addr, s)) ∨
    (∃ t s1, touched_way b hid s addr = some t ∧
      ReadInstruction b hid mem s addr = touch_way s1 addr ((addr >>> 5) &&& 0x7f) t) := by
  unfold touched_way
  by_cases h1 : hid.ICE = true
  · by_cases h2 : resolve_way b s addr = 0xff
    · by_cases h3 : hid.ILOCK = true
      · left
        rw [ReadInstruction_locked b hid mem s addr h1 h2 h3]
        simp [h1, h2, h3]
      · simp only [Bool.not_eq_true] at h3
        right
        refine ⟨select_way s ((addr >>> 5) &&& 0x7f), _, ?_,
          ReadInstruction_fill b hid mem s addr h1 h2 h3⟩
        simp [h1, h2, h3]
    · right
      refine ⟨resolve_way b s addr, s, ?_, ReadInstruction_hit b hid mem s addr h1 h2⟩
      simp [h1, h2]
  · simp only [Bool.not_eq_true] at h1
    left
    rw [ReadInstruction_off b hid mem s addr h1]
    simp [h1]

/-- The set of a touched way after the read: the way is below 8 and valid,
the mask is 8-bit, the pseudo-LRU state is the update for that way, and the
tables are untouched. -/
theorem touched_way_Constructed (b : Build) (hid : HID0) (mem : Memory)
    (s : InstructionCache) (addr t : Nat)
    (hs : Constructed b s ((addr >>> 5) &&& 0x7f))
    (ht : touched_way b hid s addr = some t) :
    t < 8 ∧
    way_valid (ReadInstruction b hid mem s addr).2 ((addr >>> 5) &&& 0x7f) t ∧
    (ReadInstruction b hid mem s addr).2.valid ((addr >>> 5) &&& 0x7f) < 256 ∧
    (ReadInstruction b hid mem s addr).2.plru ((addr >>> 5) &&& 0x7f) =
      ((s.plru ((addr >>> 5) &&& 0x7f) &&& (0xFFFFFFFF - plru_mask t)) ||| plru_value t) := by
  obtain ⟨hint, hval, hplru, hfast⟩ := hs
  unfold touched_way at ht
  by_cases h1 : hid.ICE = true
  · simp only [h1, Bool.not_true, Bool.false_eq_true, if_false] at ht
    by_cases h2 : resolve_way b s addr = 0xff
    · rw [if_pos h2] at ht
      by_cases h3 : hid.ILOCK = true
      · simp [h3] at ht
      · simp only [Bool.not_eq_true] at h3
        simp only [h3, Bool.false_eq_true, if_false, Option.some.injEq] at ht
        have ht8 : t < 8 := by
          rw [← ht]
          unfold select_way
          by_cases hfull : s.valid ((addr >>> 5) &&& 0x7f) ≠ 0xff
          · rw [if_pos hfull, hint.1 _ (by omega)]
            exact (first_free_way_spec _ (by omega)).1
          · rw [if_neg hfull, hint.2 _ hplru]
            exact plru_way_lt _ hplru
        rw [ReadInstruction_fill b hid mem s addr h1 h2 h3, touch_way_state]
        simp only
        rw [fill_way_valid, fill_way_plru, ht]
        unfold way_valid
        simp only [Function.update_same]
        have := valid_or_bit_spec _ hval t ht8
        exact ⟨ht8, this.2, this.1, trivial⟩
    · rw [if_neg h2] at ht
      simp only [Option.some.injEq] at ht
      rw [ReadInstruction_hit b hid mem s addr h1 h2, touch_way_state]
      simp only [Function.update_same]
      rw [ht]
      have hres : t < 8 ∧ way_valid s ((addr >>> 5) &&& 0x7f) t := by
        rw [← ht]
        unfold resolve_way at h2 ⊢
        by_cases hf : b.FAST_ICACHE = true
        · rw [if_pos hf] at h2 ⊢
          exact hfast hf addr rfl h2
        · rw [if_neg hf] at h2 ⊢
          rcases scan_way_cases s ((addr >>> 5) &&& 0x7f) (addr >>> 12) with hc | hc
          · exact absurd hc.1 h2
          · exact ⟨hc.1, hc.2.2⟩
      exact ⟨hres.1, hres.2, hval, rfl⟩
  · simp only [Bool.not_eq_true] at h1
    simp [h1] at ht

end PowerPC

namespace PowerPC

open InstructionCache

/-- C6: (tables) for the table the constructor builds, every 7-bit pseudo-LRU
state `p` and every way `t < 8`, the victim of the state updated for `t` is
not `t`; (states) in every cache state reachable from `Init()`, and in every
state whose tables are the constructor's and whose set is well formed, if a
`ReadInstruction` touches way `t` of a set and the next `ReadInstruction` that
addresses the set (after any `Reset`, `Invalidate` and reads of other sets)
misses and fills way `v` while a valid way other than `t` exists in the set,
then `v` is not `t`. -/
theorem plru_spares_most_recent_way :
    (∀ (raw : InstructionCache) (p t : Nat), p < 128 → t < 8 →
      (InstructionCache.ctor raw).way_from_plru
        ((p &&& (0xFFFFFFFF - plru_mask t)) ||| plru_value t) ≠ t) ∧
    (∀ (b : Build) (s s2 : InstructionCache) (hid1 hid2 : HID0) (mem1 : Memory)
      (a1 a2 t v w : Nat),
      (Reachable b s ∨ Constructed b s ((a1 >>> 5) &&& 0x7f)) →
      touched_way b hid1 s a1 = some t →
      NoReadOfSet b ((a1 >>> 5) &&& 0x7f) (ReadInstruction b hid1 mem1 s a1).2 s2 →
      (a2 >>> 5) &&& 0x7f = (a1 >>> 5) &&& 0x7f →
      filled_way b hid2 s2 a2 = some v →
      w ≠ t → way_valid s2 ((a1 >>> 5) &&& 0x7f) w →
      v ≠ t) := by
  constructor
  · intro raw p t hp ht
    have h := plru_update_spec p hp t ht
    rw [(Intact_ctor raw).2 _ h.1]
    exact h.2
  · intro b s s2 hid1 hid2 mem1 a1 a2 t v w hs ht hrun hset hv hwt hw
    obtain ⟨_, _, _, hvsel⟩ := filled_way_eq_some b hid2 s2 a2 v hv
    rw [hset] at hvsel
    rcases hs with hs | hs
    · have hw1 := Wiped_ReadInstruction b hid1 mem1 s a1 (Reachable_Wiped b s hs)
      have hw2 := NoReadOfSet_Wiped b _ _ s2 hrun hw1
      have hw0 := way_valid_zero_of_le_one s2 _ w (hw2.2.2 _) hw
      rw [hvsel, select_way_wiped s2 _ hw2]
      intro h0
      exact hwt (by rw [hw0, h0])
    · obtain ⟨ht8, htv, hV, hP⟩ := touched_way_Constructed b hid1 mem1 s a1 t hs ht
      obtain ⟨fvp, f1, f2⟩ := NoReadOfSet_frame b _ _ s2 hrun
      have hint2 : Intact s2 :=
        Intact_of_tables s s2 hs.1
          (by rw [f1, ReadInstruction_way_from_valid])
          (by rw [f2, ReadInstruction_way_from_plru])
      rcases fvp with f0 | ⟨fv, fp⟩
      · exfalso
        unfold way_valid at hw
        rw [f0] at hw
        simp at hw
      · rw [hvsel]
        unfold select_way
        rw [fv, fp]
        unfold way_valid at htv
        by_cases hfull :
            (ReadInstruction b hid1 mem1 s a1).2.valid ((a1 >>> 5) &&& 0x7f) ≠ 0xff
        · rw [if_pos hfull, hint2.1 _ (by omega)]
          intro heq
          have hclear := (first_free_way_spec _
            (show (ReadInstruction b hid1 mem1 s a1).2.valid ((a1 >>> 5) &&& 0x7f) < 255 by
              omega)).2
          rw [heq] at hclear
          exact htv hclear
        · rw [if_neg hfull, hP]
          have h := plru_update_spec _ hs.2.2.1 t ht8
          rw [hint2.2 _ h.1]
          exact h.2

theorem read_all_tables (b : Build) (hid : HID0) (mem : Memory) (l : List Nat) :
    ∀ s : InstructionCache,
      (read_all b hid mem s l).way_from_valid = s.way_from_valid ∧
      (read_all b hid mem s l).way_from_plru = s.way_from_plru := by
  induction l with
  | nil => intro s; exact ⟨rfl, rfl⟩
  | cons a l ih =>
    intro s
    have h := ih (ReadInstruction b hid mem s a).2
    rw [ReadInstruction_way_from_valid, ReadInstruction_way_from_plru] at h
    exact h

theorem Constructed_full_set :
    Constructed scanBuild
      (read_all scanBuild cacheOn (wordMemory 1) (freshCache scanBuild)
        [0, 0x1000, 0x2000, 0x3000, 0x4000, 0x5000, 0x6000, 0x7000])
      ((0x3000 >>> 5) &&& 0x7f) := by
  refine ⟨?_, by decide!, by decide!, fun h => by cases h⟩
  have h := read_all_tables scanBuild cacheOn (wordMemory 1)
    [0, 0x1000, 0x2000, 0x3000, 0x4000, 0x5000, 0x6000, 0x7000] (freshCache scanBuild)
  exact Intact_of_tables (InstructionCache.ctor zeroCache) _ (Intact_ctor zeroCache) h.1 h.2

theorem plru_spares_most_recent_way_witness :
    touched_way scanBuild cacheOn
      (read_all scanBuild cacheOn (wordMemory 1) (freshCache scanBuild)
        [0, 0x1000, 0x2000, 0x3000, 0x4000, 0x5000, 0x6000, 0x7000]) 0x3000 = some 3 ∧
    filled_way scanBuild cacheOn
      (ReadInstruction scanBuild cacheOn (wordMemory 1)
        (read_all scanBuild cacheOn (wordMemory 1) (freshCache scanBuild)
          [0, 0x1000, 0x2000, 0x3000, 0x4000, 0x5000, 0x6000, 0x7000]) 0x3000).2
      0x8000 = some 4 ∧
    (4 : Nat) ≠ 3 :=
  ⟨by decide!, by decide!,
    plru_spares_most_recent_way.2 scanBuild
      (read_all scanBuild cacheOn (wordMemory 1) (freshCache scanBuild)
        [0, 0x1000, 0x2000, 0x3000, 0x4000, 0x5000, 0x6000, 0x7000])
      (ReadInstruction scanBuild cacheOn (wordMemory 1)
        (read_all scanBuild cacheOn (wordMemory 1) (freshCache scanBuild)
          [0, 0x1000, 0x2000, 0x3000, 0x4000, 0x5000, 0x6000, 0x7000]) 0x3000).2
      cacheOn cacheOn (wordMemory 1) 0x3000 0x8000 3 4 0
      (Or.inr Constructed_full_set) (by decide!) (NoReadOfSet.none _) (by decide)
      (by decide!) (by decide) (by decide!)⟩

end PowerPC

namespace PowerPC

open InstructionCache

/-! ### Bit arithmetic of addresses, tags and table indices -/

theorem way_valid_iff_testBit (s : InstructionCache) (c i : Nat) :
    way_valid s c i ↔ (s.valid c).testBit i = true := by
  unfold way_valid
  rw [Nat.one_shiftLeft, Nat.and_two_pow]
  cases h : (s.valid c).testBit i
  · simp
  · simp

theorem index_of_addr (a n : Nat) (hn : 7 ≤ n) (hn2 : n ≤ 25) :
    ((((a >>> 12) <<< 7) % 2 ^ 32) ||| ((a >>> 5) &&& (2 ^ 7 - 1))) &&& (2 ^ n - 1) =
      (a >>> 5) &&& (2 ^ n - 1) := by
  apply Nat.eq_of_testBit_eq
  intro i
  simp only [Nat.testBit_and, Nat.testBit_or, Nat.testBit_mod_two_pow, Nat.testBit_shiftLeft,
    Nat.testBit_shiftRight, Nat.testBit_two_pow_sub_one]
  by_cases h1 : i < 7
  · have h4 : ¬ 7 ≤ i := by omega
    have h5 : i < n := by omega
    simp [h1, h4, h5]
  · by_cases h2 : i < n
    · have h6 : 12 + (i - 7) = 5 + i := by omega
      have h3 : i < 32 := by omega
      have h4 : i ≥ 7 := by omega
      simp [h1, h2, h6, h3, h4]
    · simp [h2]

theorem tag_index_of_addr (r : Region) (addr : Nat) :
    tag_index r ((addr >>> 5) &&& 0x7f) (addr >>> 12) = (addr >>> 5) &&& r.mask := by
  unfold tag_index
  cases r
  · exact index_of_addr addr 20 (by decide) (by decide)
  · exact index_of_addr addr 21 (by decide) (by decide)
  · exact index_of_addr addr 20 (by decide) (by decide)

theorem index_set (r : Region) (x : Nat) : (x &&& r.mask) &&& 0x7f = x &&& 0x7f := by
  rw [Nat.and_assoc]
  cases r <;> rfl

theorem and_low_bits (x V n : Nat) (hV : V % 2 ^ n = 0) : (x &&& V) % 2 ^ n = 0 := by
  apply Nat.eq_of_testBit_eq
  intro i
  rw [Nat.testBit_mod_two_pow, Nat.testBit_and, Nat.zero_testBit]
  by_cases hi : i < n
  · have hbit : V.testBit i = false := by
      have h := Nat.testBit_mod_two_pow V n i
      rw [hV, Nat.zero_testBit] at h
      simpa [hi] using h.symm
    simp [hbit]
  · simp [hi]

theorem shiftRight_and (a c n : Nat) : (a &&& c) >>> n = (a >>> n) &&& (c >>> n) := by
  apply Nat.eq_of_testBit_eq
  intro i
  simp only [Nat.testBit_and, Nat.testBit_shiftRight]

theorem tag_bit_iff (x V : Nat) (hV : V % 4096 = 0) :
    ((x >>> 12) &&& (V >>> 12) ≠ 0) ↔ (x &&& V ≠ 0) := by
  rw [← shiftRight_and, Nat.shiftRight_eq_div_pow]
  have h1 := and_low_bits x V 12 hV
  constructor
  · intro h h0; apply h; rw [h0]
  · intro h h0; apply h
    have h2 : (x &&& V) / 2 ^ 12 * 2 ^ 12 + (x &&& V) % 2 ^ 12 = x &&& V := Nat.div_add_mod' _ _
    omega

theorem region_of_tag_of_addr (b : Build) (addr : Nat)
    (hV : b.ICACHE_VMEM_BIT % 4096 = 0) (hE : b.ICACHE_EXRAM_BIT % 4096 = 0) :
    region_of_tag b (addr >>> 12) = region_of_addr b addr := by
  unfold region_of_tag region_of_addr
  by_cases h1 : addr &&& b.ICACHE_VMEM_BIT ≠ 0
  · rw [if_pos h1, if_pos ((tag_bit_iff addr _ hV).mpr h1)]
  · rw [if_neg h1, if_neg (fun h => h1 ((tag_bit_iff addr _ hV).mp h))]
    by_cases h2 : addr &&& b.ICACHE_EXRAM_BIT ≠ 0
    · rw [if_pos h2, if_pos ((tag_bit_iff addr _ hE).mpr h2)]
    · rw [if_neg h2, if_neg (fun h => h2 ((tag_bit_iff addr _ hE).mp h))]

theorem and_eq_of_shiftRight_eq (A B K n : Nat) (hK : K % 2 ^ n = 0)
    (h : A >>> n = B >>> n) : A &&& K = B &&& K := by
  apply Nat.eq_of_testBit_eq
  intro i
  rw [Nat.testBit_and, Nat.testBit_and]
  by_cases hi : i < n
  · have hbit : K.testBit i = false := by
      have h1 := Nat.testBit_mod_two_pow K n i
      rw [hK, Nat.zero_testBit] at h1
      simpa [hi] using h1.symm
    simp [hbit]
  · have hA : A.testBit i = (A >>> n).testBit (i - n) := by
      rw [Nat.testBit_shiftRight]; congr 1; omega
    have hB : B.testBit i = (B >>> n).testBit (i - n) := by
      rw [Nat.testBit_shiftRight]; congr 1; omega
    rw [hA, hB, h]

theorem region_of_addr_same_line (b : Build) (A B : Nat) (h : B >>> 5 = A >>> 5)
    (hV : b.ICACHE_VMEM_BIT % 4096 = 0) (hE : b.ICACHE_EXRAM_BIT % 4096 = 0) :
    region_of_addr b B = region_of_addr b A := by
  unfold region_of_addr
  have h32 : ∀ K : Nat, K % 4096 = 0 → K % 2 ^ 5 = 0 := by
    intro K hK
    have : (2 : Nat) ^ 5 = 32 := by decide
    omega
  rw [and_eq_of_shiftRight_eq B A _ 5 (h32 _ hV) h, and_eq_of_shiftRight_eq B A _ 5 (h32 _ hE) h]

theorem tag_same_line (A B : Nat) (h : B >>> 5 = A >>> 5) : B >>> 12 = A >>> 12 := by
  have hB : B >>> 12 = (B >>> 5) >>> 7 := by rw [← Nat.shiftRight_add]
  have hA : A >>> 12 = (A >>> 5) >>> 7 := by rw [← Nat.shiftRight_add]
  rw [hB, hA, h]

theorem line_same_line (A B : Nat) (h : B >>> 5 = A >>> 5) :
    B &&& 0xFFFFFFE0 = A &&& 0xFFFFFFE0 :=
  and_eq_of_shiftRight_eq B A _ 5 (by decide) h

/-! ### The lookup tables after each helper -/

theorem lookup_read_eq (b : Build) (s : InstructionCache) (addr : Nat) :
    lookup_read b s addr =
      table s (region_of_addr b addr) ((addr >>> 5) &&& (region_of_addr b addr).mask) := by
  unfold lookup_read region_of_addr
  split_ifs <;> rfl

theorem table_lookup_clear (b : Build) (s : InstructionCache) (c tag : Nat) (r : Region)
    (i : Nat) :
    table (lookup_clear b s c tag) r i =
      if r = region_of_tag b tag ∧ i = tag_index r c tag then 0xff else table s r i := by
  unfold lookup_clear region_of_tag
  by_cases h1 : tag &&& (b.ICACHE_VMEM_BIT >>> 12) ≠ 0
  · simp only [if_pos h1]
    cases r <;> simp [table, tag_index, Region.mask, Function.update_apply]
  · simp only [if_neg h1]
    by_cases h2 : tag &&& (b.ICACHE_EXRAM_BIT >>> 12) ≠ 0
    · simp only [if_pos h2]
      cases r <;> simp [table, tag_index, Region.mask, Function.update_apply]
    · simp only [if_neg h2]
      cases r <;> simp [table, tag_index, Region.mask, Function.update_apply]

theorem table_lookup_write (b : Build) (s : InstructionCache) (addr t : Nat) (r : Region)
    (i : Nat) :
    table (lookup_write b s addr t) r i =
      if r = region_of_addr b addr ∧ i = (addr >>> 5) &&& r.mask then t % 256
      else table s r i := by
  unfold lookup_write region_of_addr
  by_cases h1 : addr &&& b.ICACHE_VMEM_BIT ≠ 0
  · simp only [if_pos h1]
    cases r <;> simp [table, Region.mask, Function.update_apply]
  · simp only [if_neg h1]
    by_cases h2 : addr &&& b.ICACHE_EXRAM_BIT ≠ 0
    · simp only [if_pos h2]
      cases r <;> simp [table, Region.mask, Function.update_apply]
    · simp only [if_neg h2]
      cases r <;> simp [table, Region.mask, Function.update_apply]

theorem table_Reset (b : Build) (s : InstructionCache) (hf : b.FAST_ICACHE = true)
    (r : Region) (i : Nat) : table (Reset b s) r i = 0xff := by
  unfold Reset
  simp only [hf, if_true]
  cases r <;> rfl

theorem table_clear_ways (b : Build) (c : Nat) (l : List Nat) :
    ∀ s : InstructionCache,
      (∀ r i, table (clear_ways b c l s) r i = table s r i ∨
        table (clear_ways b c l s) r i = 0xff) ∧
      (∀ w, w ∈ l → way_valid s c w →
        table (clear_ways b c l s) (region_of_tag b (s.tags c w))
          (tag_index (region_of_tag b (s.tags c w)) c (s.tags c w)) = 0xff) := by
  induction l with
  | nil =>
    intro s
    exact ⟨fun r i => Or.inl rfl, fun w hw => absurd hw (List.not_mem_nil w)⟩
  | cons a l ih =>
    intro s
    simp only [clear_ways]
    by_cases hv : s.valid c &&& (1 <<< a) ≠ 0
    · rw [if_pos hv]
      obtain ⟨ih1, ih2⟩ := ih (lookup_clear b s c (s.tags c a))
      constructor
      · intro r i
        rcases ih1 r i with h | h
        · rw [h, table_lookup_clear]
          by_cases hc : r = region_of_tag b (s.tags c a) ∧ i = tag_index r c (s.tags c a)
          · rw [if_pos hc]; exact Or.inr rfl
          · rw [if_neg hc]; exact Or.inl rfl
        · exact Or.inr h
      · intro w hw hwv
        rcases List.mem_cons.mp hw with rfl | hwl
        · rcases ih1 (region_of_tag b (s.tags c w))
            (tag_index (region_of_tag b (s.tags c w)) c (s.tags c w)) with h | h
          · rw [h, table_lookup_clear, if_pos ⟨rfl, rfl⟩]
          · exact h
        · have h := ih2 w hwl (by unfold way_valid; simpa using hwv)
          simpa using h
    · rw [if_neg hv]
      obtain ⟨ih1, ih2⟩ := ih s
      refine ⟨ih1, ?_⟩
      intro w hw hwv
      rcases List.mem_cons.mp hw with rfl | hwl
      · exact absurd hwv hv
      · exact ih2 w hwl hwv

end PowerPC

namespace PowerPC

open InstructionCache

theorem table_of_tables (s1 s2 : InstructionCache)
    (h1 : s1.lookup_table = s2.lookup_table) (h2 : s1.lookup_table_ex = s2.lookup_table_ex)
    (h3 : s1.lookup_table_vmem = s2.lookup_table_vmem) (r : Region) (i : Nat) :
    table s1 r i = table s2 r i := by
  cases r
  · show s1.lookup_table_vmem i = s2.lookup_table_vmem i; rw [h3]
  · show s1.lookup_table_ex i = s2.lookup_table_ex i; rw [h2]
  · show s1.lookup_table i = s2.lookup_table i; rw [h1]

theorem table_fill_way (b : Build) (mem : Memory) (s : InstructionCache)
    (addr c tag t : Nat) (hf : b.FAST_ICACHE = true) (r : Region) (i : Nat) :
    table (fill_way b mem s addr c tag t) r i =
      if r = region_of_addr b addr ∧ i = (addr >>> 5) &&& r.mask then t % 256
      else if way_valid s c t ∧ r = region_of_tag b (s.tags c t) ∧
          i = tag_index r c (s.tags c t) then 0xff
      else table s r i := by
  have e1 : table (fill_way b mem s addr c tag t) r i =
      table (lookup_write b
        (if (load_line mem s addr c t).valid c &&& (1 <<< t) ≠ 0 then
          lookup_clear b (load_line mem s addr c t) c ((load_line mem s addr c t).tags c t)
        else load_line mem s addr c t) addr t) r i := by
    unfold fill_way
    simp only [hf, if_true]
    cases r <;> rfl
  have e2 : ∀ r i, table (load_line mem s addr c t) r i = table s r i :=
    fun r i => table_of_tables _ s rfl rfl rfl r i
  rw [e1, table_lookup_write]
  by_cases h1 : r = region_of_addr b addr ∧ i = (addr >>> 5) &&& r.mask
  · rw [if_pos h1, if_pos h1]
  · rw [if_neg h1, if_neg h1]
    by_cases hv : s.valid c &&& (1 <<< t) ≠ 0
    · have hv0 : (load_line mem s addr c t).valid c &&& (1 <<< t) ≠ 0 := hv
      rw [if_pos hv0, table_lookup_clear, e2]
      have hv1 : way_valid s c t := hv
      simp only [hv1, true_and]
      rfl
    · have hv0 : ¬ ((load_line mem s addr c t).valid c &&& (1 <<< t) ≠ 0) := hv
      rw [if_neg hv0, e2]
      have hv1 : ¬ way_valid s c t := hv
      simp only [hv1, false_and, if_false]

theorem table_touch_way (s : InstructionCache) (addr c t : Nat) (r : Region) (i : Nat) :
    table (touch_way s addr c t).2 r i = table s r i :=
  table_of_tables _ _ rfl rfl rfl r i

theorem table_Invalidate (b : Build) (hid : HID0) (s : InstructionCache) (addr : Nat)
    (hf : b.FAST_ICACHE = true) (hice : hid.ICE = true) (r : Region) (i : Nat) :
    table (Invalidate b hid s addr) r i =
      table (clear_ways b ((addr >>> 5) &&& 0x7f) (List.range 8) s) r i := by
  unfold Invalidate
  simp only [hice, hf, Bool.not_true, Bool.false_eq_true, if_false, if_true]
  exact table_of_tables _ _ rfl rfl rfl r i

/-! ### The lookup tables stay consistent -/

theorem LookupOK_Reset (b : Build) (s : InstructionCache) (hf : b.FAST_ICACHE = true) :
    LookupOK b (Reset b s) := by
  intro r i h
  exact absurd (table_Reset b s hf r i) h

theorem LookupOK_Invalidate (b : Build) (hid : HID0) (s : InstructionCache) (addr : Nat)
    (hf : b.FAST_ICACHE = true) (h : LookupOK b s) : LookupOK b (Invalidate b hid s addr) := by
  by_cases hice : hid.ICE = true
  · intro r i hne
    rw [table_Invalidate b hid s addr hf hice] at hne ⊢
    obtain ⟨hc1, hc2⟩ := table_clear_ways b ((addr >>> 5) &&& 0x7f) (List.range 8) s
    rcases hc1 r i with heq | heq
    · rw [heq] at hne ⊢
      obtain ⟨hw8, hwv, hreg, hidx⟩ := h r i hne
      rw [Invalidate_tags]
      by_cases hc : i &&& 0x7f = (addr >>> 5) &&& 0x7f
      · exfalso
        rw [hc] at hwv hreg hidx
        have hcl := hc2 _ (List.mem_range.mpr hw8) hwv
        rw [hreg, hidx] at hcl
        rcases hc1 r i with h2 | h2
        · rw [h2] at hcl; exact hne hcl
        · rw [heq] at h2; exact hne h2
      · refine ⟨hw8, ?_, hreg, hidx⟩
        unfold way_valid
        rw [Invalidate_valid b hid s addr hice, Function.update_noteq hc]
        exact hwv
    · exact absurd heq hne
  · simp only [Bool.not_eq_true] at hice
    rw [Invalidate_off b hid s addr hice]; exact h

theorem LookupOK_touch_way (b : Build) (s : InstructionCache) (addr c t : Nat)
    (h : LookupOK b s) : LookupOK b (touch_way s addr c t).2 := by
  intro r i hne
  rw [table_touch_way] at hne ⊢
  exact h r i hne

theorem testBit_or_bit (m t : Nat) : (m ||| (1 <<< t)).testBit t = true := by
  rw [Nat.testBit_or, Nat.one_shiftLeft, Nat.testBit_two_pow]
  simp

theorem LookupOK_fill_way (b : Build) (mem : Memory) (s : InstructionCache) (addr t : Nat)
    (hf : b.FAST_ICACHE = true) (hb : b.Sane) (ht : t < 8) (h : LookupOK b s) :
    LookupOK b (fill_way b mem s addr ((addr >>> 5) &&& 0x7f) (addr >>> 12) t) := by
  obtain ⟨hV, hE⟩ := hb hf
  intro r i hne
  rw [table_fill_way b mem s addr _ _ t hf] at hne ⊢
  rw [fill_way_tags]
  by_cases h1 : r = region_of_addr b addr ∧ i = (addr >>> 5) &&& r.mask
  · rw [if_pos h1]
    obtain ⟨hr, hi⟩ := h1
    have ht256 : t % 256 = t := Nat.mod_eq_of_lt (by omega)
    have hset : i &&& 0x7f = (addr >>> 5) &&& 0x7f := by rw [hi, index_set]
    rw [ht256, hset]
    refine ⟨ht, ?_, ?_, ?_⟩
    · rw [way_valid_iff_testBit, fill_way_valid, Function.update_same]
      exact testBit_or_bit _ _
    · simp only [Function.update_same]
      rw [region_of_tag_of_addr b addr hV hE, hr]
    · simp only [Function.update_same]
      rw [tag_index_of_addr, hi]
  · rw [if_neg h1] at hne ⊢
    by_cases h2 : way_valid s ((addr >>> 5) &&& 0x7f) t ∧
        r = region_of_tag b (s.tags ((addr >>> 5) &&& 0x7f) t) ∧
        i = tag_index r ((addr >>> 5) &&& 0x7f) (s.tags ((addr >>> 5) &&& 0x7f) t)
    · rw [if_pos h2] at hne; exact absurd rfl hne
    · rw [if_neg h2] at hne ⊢
      obtain ⟨hw8, hwv, hreg, hidx⟩ := h r i hne
      by_cases hc : i &&& 0x7f = (addr >>> 5) &&& 0x7f
      · have hwt : table s r i ≠ t := by
          intro hwt
          apply h2
          rw [hwt, hc] at hwv hreg hidx
          exact ⟨hwv, hreg.symm, hidx.symm⟩
        rw [hc] at hwv hreg hidx ⊢
        simp only [Function.update_same, Function.update_noteq hwt]
        refine ⟨hw8, ?_, hreg, hidx⟩
        rw [way_valid_iff_testBit] at hwv ⊢
        rw [fill_way_valid, Function.update_same, Nat.testBit_or, hwv]
        rfl
      · rw [Function.update_noteq hc]
        refine ⟨hw8, ?_, hreg, hidx⟩
        unfold way_valid
        rw [fill_way_valid, Function.update_noteq hc]
        exact hwv

theorem Reachable_LookupOK (b : Build) (s : InstructionCache) (hf : b.FAST_ICACHE = true)
    (hb : b.Sane) (hs : Reachable b s) : LookupOK b s := by
  induction hs with
  | init raw => exact LookupOK_Reset b _ hf
  | reset _ ih => exact LookupOK_Reset b _ hf
  | invalidate hid addr _ _ ih => exact LookupOK_Invalidate b hid _ addr hf ih
  | @read s0 hid mem addr _ hs0 ih =>
    rcases ReadInstruction_state_cases b hid mem s0 addr with h | h | ⟨_, h⟩
    · rw [h]; exact ih
    · rw [h]; exact LookupOK_touch_way b s0 addr _ _ ih
    · rw [h]
      apply LookupOK_touch_way
      apply LookupOK_fill_way b mem s0 addr _ hf hb _ ih
      rw [select_way_wiped s0 _ (Reachable_Wiped b s0 hs0)]
      decide

end PowerPC

namespace PowerPC

open InstructionCache

theorem resolve_way_of_no_valid (b : Build) (hb : b.Sane) (s : InstructionCache)
    (hs : Reachable b s) (x : Nat) (hv : s.valid ((x >>> 5) &&& 0x7f) = 0) :
    resolve_way b s x = 0xff := by
  unfold resolve_way
  by_cases hf : b.FAST_ICACHE = true
  · rw [if_pos hf, lookup_read_eq]
    by_contra hne
    have h := (Reachable_LookupOK b s hf hb hs _ _ hne).2.1
    rw [index_set] at h
    unfold way_valid at h
    rw [hv] at h
    simp at h
  · rw [if_neg hf]
    exact scan_way_of_no_valid s _ _ hv

/-- The word returned and the line installed by a read that fills way 0. -/
theorem fill_way_zero_result (b : Build) (hid : HID0) (mem : Memory) (s : InstructionCache)
    (x : Nat) (hice : hid.ICE = true) (hlock : hid.ILOCK = false)
    (hmiss : resolve_way b s x = 0xff) (hsel : select_way s ((x >>> 5) &&& 0x7f) = 0) :
    (ReadInstruction b hid mem s x).1 =
      Common.swap32 (mem.GetPointer (x &&& 0xFFFFFFE0) ((x >>> 2) &&& 7) % 2 ^ 32) ∧
    way_valid (ReadInstruction b hid mem s x).2 ((x >>> 5) &&& 0x7f) 0 ∧
    (ReadInstruction b hid mem s x).2.tags ((x >>> 5) &&& 0x7f) 0 = x >>> 12 ∧
    ∀ k, k < 8 → (ReadInstruction b hid mem s x).2.data ((x >>> 5) &&& 0x7f) 0 k =
      mem.GetPointer (x &&& 0xFFFFFFE0) k % 2 ^ 32 := by
  rw [ReadInstruction_fill b hid mem s x hice hmiss hlock, hsel]
  refine ⟨?_, ?_, ?_, ?_⟩
  · rw [touch_way_word, fill_way_data]
    simp only [Function.update_same]
    rw [if_pos (and_seven_lt _)]
  · rw [way_valid_iff_testBit, touch_way_state]
    simp only
    rw [fill_way_valid, Function.update_same]
    exact testBit_or_bit _ _
  · rw [touch_way_state]; simp only
    rw [fill_way_tags]
    simp only [Function.update_same]
  · intro k hk
    rw [touch_way_state]; simp only
    rw [fill_way_data]
    simp only [Function.update_same]
    rw [if_pos hk]

/-- C7: with the cache enabled, after `Invalidate(addr)` and any further
`Reset`, `Invalidate` and reads of other sets, the next `ReadInstruction` of
any address `x` of the set `(addr>>5)&0x7f` misses: it returns the raw
guest-memory read when the cache is locked and otherwise `swap32` of the word
that guest memory holds now at `x`, whose line it installs in the way it
fills. -/
theorem Invalidate_then_read_misses (b : Build) (hb : b.Sane) (s s2 : InstructionCache)
    (hs : Reachable b s) (hid hid2 : HID0) (mem : Memory) (addr x : Nat)
    (haddr : addr < 2 ^ 32) (hice : hid.ICE = true) (hice2 : hid2.ICE = true)
    (hset : (x >>> 5) &&& 0x7f = (addr >>> 5) &&& 0x7f)
    (hrun : NoReadOfSet b ((addr >>> 5) &&& 0x7f) (Invalidate b hid s addr) s2) :
    resolve_way b s2 x = 0xff ∧
    (ReadInstruction b hid2 mem s2 x).1 =
      (if hid2.ILOCK then mem.ReadUnchecked_U32 x
       else Common.swap32 (mem.GetPointer (x &&& 0xFFFFFFE0) ((x >>> 2) &&& 7) % 2 ^ 32)) ∧
    (hid2.ILOCK = false →
      ∃ t, filled_way b hid2 s2 x = some t ∧
        way_valid (ReadInstruction b hid2 mem s2 x).2 ((x >>> 5) &&& 0x7f) t ∧
        (ReadInstruction b hid2 mem s2 x).2.tags ((x >>> 5) &&& 0x7f) t = x >>> 12 ∧
        ∀ k, k < 8 →
          (ReadInstruction b hid2 mem s2 x).2.data ((x >>> 5) &&& 0x7f) t k =
            mem.GetPointer (x &&& 0xFFFFFFE0) k % 2 ^ 32) := by
  have hr : Reachable b s2 :=
    NoReadOfSet_Reachable b _ _ s2 hrun (Reachable.invalidate hid addr haddr hs)
  have hv1 : (Invalidate b hid s addr).valid ((addr >>> 5) &&& 0x7f) = 0 := by
    rw [Invalidate_valid b hid s addr hice, Function.update_same]
  have hv : s2.valid ((x >>> 5) &&& 0x7f) = 0 := by
    rw [hset]
    rcases (NoReadOfSet_frame b _ _ s2 hrun).1 with h0 | ⟨h0, _⟩
    · exact h0
    · rw [h0, hv1]
  have hmiss := resolve_way_of_no_valid b hb _ hr x hv
  have hsel := select_way_wiped _ ((x >>> 5) &&& 0x7f) (Reachable_Wiped b _ hr)
  refine ⟨hmiss, ?_, ?_⟩
  · by_cases hl : hid2.ILOCK = true
    · rw [ReadInstruction_locked b hid2 mem _ x hice2 hmiss hl, if_pos hl]
    · simp only [Bool.not_eq_true] at hl
      rw [(fill_way_zero_result b hid2 mem _ x hice2 hl hmiss hsel).1]
      simp [hl]
  · intro hl
    refine ⟨0, ?_, (fill_way_zero_result b hid2 mem _ x hice2 hl hmiss hsel).2⟩
    unfold filled_way
    simp [hice2, hmiss, hl, hsel]

theorem Invalidate_then_read_misses_witness :
    (ReadInstruction fastBuild cacheOn (wordMemory 0x22)
      (ReadInstruction fastBuild cacheOn (wordMemory 0x22)
        (Invalidate fastBuild cacheOn
          (ReadInstruction fastBuild cacheOn (wordMemory 0x11) (Init fastBuild zeroCache)
            0x1000).2 0x3004) 0x1020).2 0x1000).1 = 0x22000000 :=
  (Invalidate_then_read_misses fastBuild (fun _ => ⟨by decide, by decide⟩)
    (ReadInstruction fastBuild cacheOn (wordMemory 0x11) (Init fastBuild zeroCache) 0x1000).2
    (ReadInstruction fastBuild cacheOn (wordMemory 0x22)
      (Invalidate fastBuild cacheOn
        (ReadInstruction fastBuild cacheOn (wordMemory 0x11) (Init fastBuild zeroCache)
          0x1000).2 0x3004) 0x1020).2
    (Reachable.read cacheOn (wordMemory 0x11) 0x1000 (by decide) (Reachable.init zeroCache))
    cacheOn cacheOn (wordMemory 0x22) 0x3004 0x1000 (by decide) rfl rfl (by decide)
    (NoReadOfSet.read cacheOn (wordMemory 0x22) 0x1020 (by decide) (by decide)
      (NoReadOfSet.none _))).2.1

/-- C8, as stated, fails: in the state reached by `Init()` and a read of
address 0 under a memory of words `0x11`, a read of `A = 0` under memory `M`
(words `0x22`) followed by a read of `B = 4` under `M'` (words `0x33`) returns
the byte-swapped `0x11`, not the byte-swapped word `0x22` that `M` held. -/
theorem stale_read_not_from_last_memory :
    Reachable scanBuild
      (ReadInstruction scanBuild cacheOn (wordMemory 0x11) (Init scanBuild zeroCache) 0).2 ∧
    (ReadInstruction scanBuild cacheOn (wordMemory 0x33)
      (ReadInstruction scanBuild cacheOn (wordMemory 0x22)
        (ReadInstruction scanBuild cacheOn (wordMemory 0x11) (Init scanBuild zeroCache) 0).2
        0).2 4).1 = 0x11000000 ∧
    Common.swap32 ((wordMemory 0x22).GetPointer (4 &&& 0xFFFFFFE0) ((4 >>> 2) &&& 7) % 2 ^ 32)
      = 0x22000000 ∧
    (ReadInstruction scanBuild cacheOn (wordMemory 0x33)
      (ReadInstruction scanBuild cacheOn (wordMemory 0x22)
        (ReadInstruction scanBuild cacheOn (wordMemory 0x11) (Init scanBuild zeroCache) 0).2
        0).2 4).1 ≠
      Common.swap32 ((wordMemory 0x22).GetPointer (4 &&& 0xFFFFFFE0) ((4 >>> 2) &&& 7) % 2 ^ 32) :=
  ⟨Reachable.read cacheOn (wordMemory 0x11) 0 (by decide) (Reachable.init zeroCache),
    by decide!, by decide!, by decide!⟩

/-- C8, amended: with the cache enabled and not locked, if `ReadInstruction(A)`
misses, and so fills the line under guest memory `M`, then the next read, of
any `B` in the same 32-byte line and under any guest memory, returns `swap32`
of the word that `M` held at `B`. -/
theorem stale_read_after_fill (b : Build) (hb : b.Sane) (s : InstructionCache)
    (hs : Reachable b s) (hid1 hid2 : HID0) (M M2 : Memory) (A B : Nat)
    (hice1 : hid1.ICE = true) (hlock1 : hid1.ILOCK = false) (hice2 : hid2.ICE = true)
    (hline : B >>> 5 = A >>> 5) (hmiss : resolve_way b s A = 0xff) :
    (ReadInstruction b hid2 M2 (ReadInstruction b hid1 M s A).2 B).1 =
      Common.swap32 (M.GetPointer (B &&& 0xFFFFFFE0) ((B >>> 2) &&& 7) % 2 ^ 32) := by
  have hw := Reachable_Wiped b s hs
  have hsel := select_way_wiped s ((A >>> 5) &&& 0x7f) hw
  obtain ⟨_, hv0, htag0, hdata0⟩ := fill_way_zero_result b hid1 M s A hice1 hlock1 hmiss hsel
  have hw1 := Wiped_ReadInstruction b hid1 M s A hw
  have hsetB : (B >>> 5) &&& 0x7f = (A >>> 5) &&& 0x7f := by rw [hline]
  have hres : resolve_way b (ReadInstruction b hid1 M s A).2 B = 0 := by
    unfold resolve_way
    by_cases hf : b.FAST_ICACHE = true
    · obtain ⟨hV, hE⟩ := hb hf
      rw [if_pos hf, lookup_read_eq, region_of_addr_same_line b A B hline hV hE, hline,
        ReadInstruction_fill b hid1 M s A hice1 hmiss hlock1, table_touch_way,
        table_fill_way b M s A _ _ _ hf, if_pos ⟨rfl, rfl⟩, hsel]
    · rw [if_neg hf, hsetB, tag_same_line A B hline]
      rcases scan_way_cases (ReadInstruction b hid1 M s A).2 ((A >>> 5) &&& 0x7f) (A >>> 12)
        with hc | hc
      · exact absurd ⟨htag0, hv0⟩ (hc.2 0 (by decide))
      · exact way_valid_zero_of_le_one _ _ _ (hw1.2.2 _) hc.2.2
  rw [ReadInstruction_hit b hid2 M2 _ B hice2 (by rw [hres]; decide), hres, touch_way_word,
    hsetB, hdata0 _ (and_seven_lt _), line_same_line A B hline]

theorem stale_read_after_fill_witness :
    (ReadInstruction fastBuild cacheOn (wordMemory 0x33)
      (ReadInstruction fastBuild cacheOn (wordMemory 0x22) (Init fastBuild zeroCache)
        0x80003100).2 0x8000311c).1 = 0x22000000 :=
  stale_read_after_fill fastBuild (fun _ => ⟨by decide, by decide⟩) (Init fastBuild zeroCache)
    (Reachable.init zeroCache) cacheOn cacheOn (wordMemory 0x22) (wordMemory 0x33)
    0x80003100 0x8000311c rfl rfl rfl (by decide) (by decide)

end PowerPC

/-! ## Theorems: the arguments of the backpatch call -/

namespace EMM

/-- `DoFault` in terms of the call it makes: unhandled when it makes none,
otherwise handled, with the program counter replaced when the backpatcher
returns a non-null address. -/
theorem DoFault_of_BackPatch_call (h : Host) (bad_address : Nat) (is_write : Bool)
    (ctx : CONTEXT) :
    DoFault h bad_address is_write ctx =
      match BackPatch_call h bad_address is_write ctx with
      | none => (false, ctx)
      | some (pc, w, off, c) =>
        if (h.BackPatch pc w off c).1 ≠ 0 then
          (true, { (h.BackPatch pc w off c).2 with PC := (h.BackPatch pc w off c).1 })
        else (true, (h.BackPatch pc w off c).2) := by
  unfold DoFault BackPatch_call
  by_cases h1 : (!h.IsInCodeSpace ctx.PC) = true
  · rw [if_pos h1, if_pos h1]
  · rw [if_neg h1, if_neg h1]
    by_cases h2 : (decide (bad_address < h.base) || decide (bad_address ≥ memspace_top h)) = true
    · simp only []
      rw [if_pos h2, if_pos h2]
    · simp only []
      rw [if_neg h2, if_neg h2]

theorem aperture_size_le (h : Host) : aperture_size h ≤ 2 ^ 32 := by
  unfold aperture_size
  split_ifs <;> decide

/-- When the sum `base + size` wraps, `memspace_top` lies below `base`. -/
theorem memspace_top_cases (h : Host) :
    memspace_top h = h.base + aperture_size h ∨ memspace_top h < h.base := by
  unfold memspace_top
  by_cases hlt : h.base + aperture_size h < 2 ^ 64
  · left; exact Nat.mod_eq_of_lt hlt
  · right
    have hs := aperture_size_le h
    have h64 : (2 : Nat) ^ 32 < 2 ^ 64 := by decide
    have hmod : (h.base + aperture_size h) % 2 ^ 64 ≤ h.base + aperture_size h - 2 ^ 64 := by
      have e : h.base + aperture_size h = (h.base + aperture_size h - 2 ^ 64) + 2 ^ 64 := by
        omega
      rw [e, Nat.add_mod_right, ← e]
      exact Nat.mod_le _ _
    omega

/-- C16: whenever `DoFault` calls `BackPatch`, the guest offset it passes is
`bad_address - Memory::base` exactly (`Memory::base` plus the offset is
`bad_address`), it is below the aperture size, which is `2^32` on x64 and
`2^30` otherwise, so the `u32` cast drops nothing; the program counter, the
write flag and the context are passed unchanged. -/
theorem BackPatch_call_offset_exact (h : Host) (bad_address : Nat) (is_write : Bool)
    (ctx : CONTEXT) (pc : Nat) (w : Bool) (off : Nat) (c : CONTEXT)
    (hcall : BackPatch_call h bad_address is_write ctx = some (pc, w, off, c)) :
    off = bad_address - h.base ∧ h.base + off = bad_address ∧
    off < aperture_size h ∧
    aperture_size h = (if h.M_X64 then 2 ^ 32 else 2 ^ 30) ∧
    pc = ctx.PC ∧ w = is_write ∧ c = ctx := by
  unfold BackPatch_call at hcall
  by_cases h1 : (!h.IsInCodeSpace ctx.PC) = true
  · rw [if_pos h1] at hcall; cases hcall
  · rw [if_neg h1] at hcall
    by_cases h2 : (decide (bad_address < h.base) || decide (bad_address ≥ memspace_top h)) = true
    · rw [if_pos h2] at hcall; cases hcall
    · rw [if_neg h2] at hcall
      have hinj := Option.some.inj hcall
      have hpc : ctx.PC = pc := congrArg Prod.fst hinj
      have hw : is_write = w := congrArg (fun x => x.2.1) hinj
      have hoff : em_address h bad_address = off := congrArg (fun x => x.2.2.1) hinj
      have hc : ctx = c := congrArg (fun x => x.2.2.2) hinj
      simp only [Bool.or_eq_true, decide_eq_true_eq, not_or, not_lt, ge_iff_le, not_le] at h2
      obtain ⟨hlo, hhi⟩ := h2
      have hs := aperture_size_le h
      have htop : memspace_top h = h.base + aperture_size h := by
        rcases memspace_top_cases h with e | e
        · exact e
        · omega
      have hlt : bad_address - h.base < 2 ^ 32 := by omega
      have hoff2 : off = bad_address - h.base := by
        rw [← hoff]; unfold em_address; exact Nat.mod_eq_of_lt hlt
      refine ⟨hoff2, by omega, by omega, ?_, hpc.symm, hw.symm, hc.symm⟩
      unfold aperture_size
      split_ifs <;> rfl

theorem BackPatch_call_offset_exact_witness :
    BackPatch_call patchingHost 0x1fffffff0 true (CONTEXT.mk 0x4000 7)
      = some (0x4000, true, 0xfffffff0, CONTEXT.mk 0x4000 7) ∧
    (0xfffffff0 : Nat) = 0x1fffffff0 - patchingHost.base :=
  ⟨by decide,
    (BackPatch_call_offset_exact patchingHost 0x1fffffff0 true (CONTEXT.mk 0x4000 7)
      0x4000 true 0xfffffff0 (CONTEXT.mk 0x4000 7) (by decide)).1⟩

end EMM

/-! ## Theorems: frame effects of the cache operations -/

namespace PowerPC

open InstructionCache

/-- C11: with the cache enabled, `Invalidate(addr)` sets the valid mask of set
`(addr>>5)&0x7f` to 0, whatever the mask and the tags were, and leaves the
valid mask of every other set and all tags, line data and pseudo-LRU states
as they were. -/
theorem Invalidate_clears_one_set (b : Build) (hid : HID0) (s : InstructionCache)
    (addr : Nat) (hice : hid.ICE = true) :
    (Invalidate b hid s addr).valid ((addr >>> 5) &&& 0x7f) = 0 ∧
    (∀ c, c ≠ (addr >>> 5) &&& 0x7f → (Invalidate b hid s addr).valid c = s.valid c) ∧
    (Invalidate b hid s addr).tags = s.tags ∧
    (Invalidate b hid s addr).data = s.data ∧
    (Invalidate b hid s addr).plru = s.plru := by
  refine ⟨?_, ?_, Invalidate_tags b hid s addr, Invalidate_data b hid s addr,
    Invalidate_plru b hid s addr⟩
  · rw [Invalidate_valid b hid s addr hice, Function.update_same]
  · intro c hc
    rw [Invalidate_valid b hid s addr hice, Function.update_noteq hc]

theorem Invalidate_clears_one_set_witness :
    (Invalidate fastBuild cacheOn
      (read_all fastBuild cacheOn (wordMemory 1) (freshCache fastBuild)
        [0x1000, 0x2000, 0x3000, 0x1020]) 0x5008).valid 0 = 0 ∧
    (read_all fastBuild cacheOn (wordMemory 1) (freshCache fastBuild)
        [0x1000, 0x2000, 0x3000, 0x1020]).valid 0 = 7 :=
  ⟨(Invalidate_clears_one_set fastBuild cacheOn
      (read_all fastBuild cacheOn (wordMemory 1) (freshCache fastBuild)
        [0x1000, 0x2000, 0x3000, 0x1020]) 0x5008 rfl).1,
    by decide!⟩

/-- C12: while `HID0.ICE` is clear, `Invalidate(addr)` leaves the whole cache
state as it was, and `ReadInstruction(addr)` does too and returns
`Memory::ReadUnchecked_U32(addr)`. -/
theorem disabled_cache_is_bypassed (b : Build) (hid : HID0) (mem : Memory)
    (s : InstructionCache) (addr : Nat) (hice : hid.ICE = false) :
    Invalidate b hid s addr = s ∧
    ReadInstruction b hid mem s addr = (mem.ReadUnchecked_U32 addr, s) :=
  ⟨Invalidate_off b hid s addr hice, ReadInstruction_off b hid mem s addr hice⟩

theorem disabled_cache_is_bypassed_witness :
    (ReadInstruction fastBuild (HID0.mk false false) (wordMemory 0x11223344)
      (Init fastBuild zeroCache) 0x1000).1 = 0x44332211 :=
  congrArg Prod.fst
    (disabled_cache_is_bypassed fastBuild (HID0.mk false false) (wordMemory 0x11223344)
      (Init fastBuild zeroCache) 0x1000 rfl).2

/-- C13: with the cache enabled and locked, a `ReadInstruction(addr)` that
misses returns `Memory::ReadUnchecked_U32(addr)` and leaves the whole cache
state (tags, valid masks, line data, lookup tables, pseudo-LRU states) as it
was. -/
theorem locked_miss_is_bypassed (b : Build) (hid : HID0) (mem : Memory)
    (s : InstructionCache) (addr : Nat) (hice : hid.ICE = true) (hlock : hid.ILOCK = true)
    (hmiss : resolve_way b s addr = 0xff) :
    ReadInstruction b hid mem s addr = (mem.ReadUnchecked_U32 addr, s) :=
  ReadInstruction_locked b hid mem s addr hice hmiss hlock

theorem locked_miss_is_bypassed_witness :
    (ReadInstruction scanBuild cacheLocked (wordMemory 0x11223344)
      (Init scanBuild zeroCache) 0x1000).1 = 0x44332211 :=
  congrArg Prod.fst
    (locked_miss_is_bypassed scanBuild cacheLocked (wordMemory 0x11223344)
      (Init scanBuild zeroCache) 0x1000 rfl rfl (by decide))

/-! ## Theorems: the first-free-way table -/

/-- Once the search loop has stopped at a clear bit, more fuel changes
nothing. -/
theorem first_free_way_fuel (m : Nat) :
    ∀ f w, m &&& (1 <<< first_free_way m f w) = 0 →
      ∀ k, first_free_way m (f + k) w = first_free_way m f w := by
  intro f
  induction f with
  | zero =>
    intro w hw k
    simp only [first_free_way] at hw
    cases k with
    | zero => rfl
    | succ k =>
      simp only [Nat.zero_add, first_free_way]
      rw [if_neg (by simpa using hw)]
  | succ f ih =>
    intro w hw k
    have e : f + 1 + k = (f + k) + 1 := by omega
    rw [e]
    by_cases hb : m &&& (1 <<< w) ≠ 0
    · have e1 : first_free_way m (f + 1) w = first_free_way m f (w + 1) := by
        simp only [first_free_way]; rw [if_pos hb]
      have e2 : first_free_way m (f + k + 1) w = first_free_way m (f + k) (w + 1) := by
        simp only [first_free_way]; rw [if_pos hb]
      rw [e1] at hw ⊢
      rw [e2]
      exact ih (w + 1) hw k
    · have e1 : first_free_way m (f + 1) w = w := by
        simp only [first_free_way]; rw [if_neg hb]
      have e2 : first_free_way m (f + k + 1) w = w := by
        simp only [first_free_way]; rw [if_neg hb]
      rw [e1, e2]

theorem first_free_way_least :
    ∀ m, m < 255 → first_free_way m 8 0 = first_free_way m 32 0 ∧
      ∀ i, i < first_free_way m 32 0 → m &&& (1 <<< i) ≠ 0 := by
  decide!

/-- C14: for every valid mask `m` in `0..254` the entry `way_from_valid[m]`
that the constructor computes is below 8, bit `way_from_valid[m]` of `m` is
clear and every lower bit of `m` is set; the search loop stops within eight
steps, so any fuel of at least 8 gives this value. -/
theorem way_from_valid_is_first_free (raw : InstructionCache) (m : Nat) (hm : m < 255) :
    (InstructionCache.ctor raw).way_from_valid m < 8 ∧
    m &&& (1 <<< (InstructionCache.ctor raw).way_from_valid m) = 0 ∧
    (∀ i, i < (InstructionCache.ctor raw).way_from_valid m → m &&& (1 <<< i) ≠ 0) ∧
    ∀ fuel, 8 ≤ fuel → first_free_way m fuel 0 = (InstructionCache.ctor raw).way_from_valid m := by
  rw [(Intact_ctor raw).1 m hm]
  obtain ⟨h8, hclear⟩ := first_free_way_spec m hm
  obtain ⟨he, hleast⟩ := first_free_way_least m hm
  refine ⟨h8, hclear, hleast, ?_⟩
  intro fuel hf
  obtain ⟨k, rfl⟩ : ∃ k, fuel = 8 + k := ⟨fuel - 8, by omega⟩
  rw [first_free_way_fuel m 8 0 (by rw [he]; exact hclear) k, he]

theorem way_from_valid_is_first_free_witness :
    (InstructionCache.ctor zeroCache).way_from_valid 0x5f = 5 ∧
    (InstructionCache.ctor zeroCache).way_from_valid 0x5f < 8 :=
  ⟨by decide, (way_from_valid_is_first_free zeroCache 0x5f (by decide)).1⟩

end PowerPC

/-! ## Theorems: every index stays in range -/

namespace PowerPC

open InstructionCache

theorem set_index_lt (addr : Nat) : (addr >>> 5) &&& 0x7f < 128 :=
  Nat.lt_of_le_of_lt Nat.and_le_right (by decide)

theorem Bounded_Init (b : Build) (s : InstructionCache) : Bounded b (Init b s) := by
  refine ⟨?_, ?_, ?_, ?_, ?_⟩
  · intro m _; rw [Init_way_from_valid]; show (0 : Nat) < 8; decide
  · intro p _; rw [Init_way_from_plru]; show (0 : Nat) < 8; decide
  · intro c; rw [Init_valid]; show (0 : Nat) < 256; decide
  · intro c; rw [Init_plru]; show (0 : Nat) < 128; decide
  · intro hf r i
    left
    unfold Init
    exact table_Reset b _ hf r i

theorem Bounded_ctor_zeroCache (b : Build) : Bounded b (InstructionCache.ctor zeroCache) := by
  refine ⟨?_, ?_, ?_, ?_, ?_⟩
  · intro m hm
    rw [(Intact_ctor zeroCache).1 m hm]
    exact (first_free_way_spec m hm).1
  · intro p hp
    rw [(Intact_ctor zeroCache).2 p hp]
    exact plru_way_lt p hp
  · intro c; show (0 : Nat) < 256; decide
  · intro c; show (0 : Nat) < 128; decide
  · intro _ r i
    right
    cases r <;> (show (0 : Nat) < 8; decide)

theorem Bounded_Reset (b : Build) (s : InstructionCache) (h : Bounded b s) :
    Bounded b (Reset b s) := by
  obtain ⟨h1, h2, _, _, _⟩ := h
  refine ⟨?_, ?_, ?_, ?_, ?_⟩
  · intro m hm; rw [Reset_way_from_valid]; exact h1 m hm
  · intro p hp; rw [Reset_way_from_plru]; exact h2 p hp
  · intro c; rw [Reset_valid]; show (0 : Nat) < 256; decide
  · intro c; rw [Reset_plru]; show (0 : Nat) < 128; decide
  · intro hf r i
    left
    exact table_Reset b s hf r i

theorem Bounded_Invalidate (b : Build) (hid : HID0) (s : InstructionCache) (addr : Nat)
    (h : Bounded b s) : Bounded b (Invalidate b hid s addr) := by
  by_cases hice : hid.ICE = true
  · obtain ⟨h1, h2, h3, h4, h5⟩ := h
    refine ⟨?_, ?_, ?_, ?_, ?_⟩
    · intro m hm; rw [Invalidate_way_from_valid]; exact h1 m hm
    · intro p hp; rw [Invalidate_way_from_plru]; exact h2 p hp
    · intro c
      rw [Invalidate_valid b hid s addr hice]
      by_cases hc : c = (addr >>> 5) &&& 0x7f
      · rw [hc, Function.update_same]; decide
      · rw [Function.update_noteq hc]; exact h3 c
    · intro c; rw [Invalidate_plru]; exact h4 c
    · intro hf r i
      rw [table_Invalidate b hid s addr hf hice]
      rcases (table_clear_ways b ((addr >>> 5) &&& 0x7f) (List.range 8) s).1 r i with e | e
      · rw [e]; exact h5 hf r i
      · exact Or.inl e
  · simp only [Bool.not_eq_true] at hice
    rw [Invalidate_off b hid s addr hice]; exact h

theorem select_way_lt (b : Build) (s : InstructionCache) (c : Nat) (h : Bounded b s) :
    select_way s c < 8 := by
  obtain ⟨h1, h2, h3, h4, _⟩ := h
  unfold select_way
  by_cases hfull : s.valid c ≠ 0xff
  · rw [if_pos hfull]
    have := h3 c
    exact h1 _ (by omega)
  · rw [if_neg hfull]
    exact h2 _ (h4 c)

theorem resolve_way_lt (b : Build) (s : InstructionCache) (addr : Nat) (h : Bounded b s)
    (hne : resolve_way b s addr ≠ 0xff) : resolve_way b s addr < 8 := by
  unfold resolve_way at hne ⊢
  by_cases hf : b.FAST_ICACHE = true
  · rw [if_pos hf] at hne ⊢
    rw [lookup_read_eq] at hne ⊢
    rcases h.2.2.2.2 hf _ _ with e | e
    · exact absurd e hne
    · exact e
  · rw [if_neg hf] at hne ⊢
    rcases scan_way_cases s ((addr >>> 5) &&& 0x7f) (addr >>> 12) with hc | hc
    · exact absurd hc.1 hne
    · exact hc.1

theorem Bounded_touch_way (b : Build) (s : InstructionCache) (addr c t : Nat)
    (h : Bounded b s) (ht : t < 8) : Bounded b (touch_way s addr c t).2 := by
  obtain ⟨h1, h2, h3, h4, h5⟩ := h
  refine ⟨h1, h2, h3, ?_, ?_⟩
  · intro c1
    rw [touch_way_state]
    simp only
    by_cases hc : c1 = c
    · rw [hc, Function.update_same]
      exact (plru_update_spec _ (h4 c) t ht).1
    · rw [Function.update_noteq hc]; exact h4 c1
  · intro hf r i
    rw [table_touch_way]
    exact h5 hf r i

theorem Bounded_fill_way (b : Build) (mem : Memory) (s : InstructionCache)
    (addr c tag t : Nat) (h : Bounded b s) (ht : t < 8) :
    Bounded b (fill_way b mem s addr c tag t) := by
  obtain ⟨h1, h2, h3, h4, h5⟩ := h
  refine ⟨?_, ?_, ?_, ?_, ?_⟩
  · intro m hm; rw [fill_way_way_from_valid]; exact h1 m hm
  · intro p hp; rw [fill_way_way_from_plru]; exact h2 p hp
  · intro c1
    rw [fill_way_valid]
    by_cases hc : c1 = c
    · rw [hc, Function.update_same]
      exact (valid_or_bit_spec _ (h3 c) t ht).1
    · rw [Function.update_noteq hc]; exact h3 c1
  · intro c1; rw [fill_way_plru]; exact h4 c1
  · intro hf r i
    rw [table_fill_way b mem s addr c tag t hf]
    split_ifs
    · right; rw [Nat.mod_eq_of_lt (by omega)]; exact ht
    · left; rfl
    · exact h5 hf r i

theorem Bounded_ReadInstruction (b : Build) (hid : HID0) (mem : Memory)
    (s : InstructionCache) (addr : Nat) (h : Bounded b s) :
    Bounded b (ReadInstruction b hid mem s addr).2 := by
  by_cases h1 : hid.ICE = true
  · by_cases h2 : resolve_way b s addr = 0xff
    · by_cases h3 : hid.ILOCK = true
      · rw [ReadInstruction_locked b hid mem s addr h1 h2 h3]; exact h
      · simp only [Bool.not_eq_true] at h3
        rw [ReadInstruction_fill b hid mem s addr h1 h2 h3]
        have ht := select_way_lt b s ((addr >>> 5) &&& 0x7f) h
        exact Bounded_touch_way b _ addr _ _ (Bounded_fill_way b mem s addr _ _ _ h ht) ht
    · rw [ReadInstruction_hit b hid mem s addr h1 h2]
      exact Bounded_touch_way b s addr _ _ h (resolve_way_lt b s addr h h2)
  · simp only [Bool.not_eq_true] at h1
    rw [ReadInstruction_off b hid mem s addr h1]; exact h

theorem ReachableFrom_Bounded (b : Build) (s0 s : InstructionCache) (h0 : Bounded b s0)
    (hs : ReachableFrom b s0 s) : Bounded b s := by
  induction hs with
  | start => exact h0
  | init _ _ => exact Bounded_Init b _
  | reset _ ih => exact Bounded_Reset b _ ih
  | invalidate hid addr _ _ ih => exact Bounded_Invalidate b hid _ addr ih
  | read hid mem addr _ _ ih => exact Bounded_ReadInstruction b hid mem _ addr ih

theorem touched_way_lt (b : Build) (hid : HID0) (s : InstructionCache) (addr t : Nat)
    (h : Bounded b s) (ht : touched_way b hid s addr = some t) : t < 8 := by
  unfold touched_way at ht
  by_cases h1 : (!hid.ICE) = true
  · rw [if_pos h1] at ht; cases ht
  · rw [if_neg h1] at ht
    by_cases h2 : resolve_way b s addr = 0xff
    · rw [if_pos h2] at ht
      by_cases h3 : hid.ILOCK = true
      · rw [if_pos h3] at ht; cases ht
      · rw [if_neg h3] at ht
        rw [← Option.some.inj ht]
        exact select_way_lt b s _ h
    · rw [if_neg h2] at ht
      rw [← Option.some.inj ht]
      exact resolve_way_lt b s addr h h2

/-- C17: in every state reachable by `Init`, `Reset`, `Invalidate` and
`ReadInstruction` from the constructed object (in zeroed storage) or from
`Init()`, for every call with a 32-bit address: the set index is below 128;
every pseudo-LRU state is below 128, so `way_from_plru[plru[set]]` is in
bounds; a valid mask other than `0xff`, the only kind with which
`way_from_valid` is indexed, is below 255; and the way that the call touches
or fills, which indexes `data[set]`, `tags[set]`, `plru_mask` and
`plru_value`, is below 8 and is the table entry that lines 154-157 select. -/
theorem cache_indices_in_range (b : Build) (s0 s : InstructionCache)
    (hstart : s0 = InstructionCache.ctor zeroCache ∨ ∃ raw, s0 = Init b raw)
    (hs : ReachableFrom b s0 s) (hid : HID0) (addr : Nat) :
    (addr >>> 5) &&& 0x7f < 128 ∧
    (∀ c, s.plru c < 128) ∧
    (∀ c, s.valid c ≠ 0xff → s.valid c < 255) ∧
    (∀ t, touched_way b hid s addr = some t → t < 8) ∧
    (∀ v, filled_way b hid s addr = some v →
      v < 8 ∧
      v = if s.valid ((addr >>> 5) &&& 0x7f) ≠ 0xff then
            s.way_from_valid (s.valid ((addr >>> 5) &&& 0x7f))
          else s.way_from_plru (s.plru ((addr >>> 5) &&& 0x7f))) := by
  have h0 : Bounded b s0 := by
    rcases hstart with e | ⟨raw, e⟩
    · rw [e]; exact Bounded_ctor_zeroCache b
    · rw [e]; exact Bounded_Init b raw
  have hb := ReachableFrom_Bounded b s0 s h0 hs
  refine ⟨set_index_lt addr, hb.2.2.2.1, ?_, ?_, ?_⟩
  · intro c hc
    have := hb.2.2.1 c
    omega
  · intro t ht
    exact touched_way_lt b hid s addr t hb ht
  · intro v hv
    obtain ⟨_, _, _, hsel⟩ := filled_way_eq_some b hid s addr v hv
    refine ⟨?_, hsel⟩
    rw [hsel]
    exact select_way_lt b s _ hb

theorem cache_indices_in_range_witness :
    touched_way fastBuild cacheOn
      (ReadInstruction fastBuild cacheOn (wordMemory 1)
        (Reset fastBuild (InstructionCache.ctor zeroCache)) 0).2 0x1000 = some 1 ∧
    (1 : Nat) < 8 :=
  ⟨by decide!,
    (cache_indices_in_range fastBuild (InstructionCache.ctor zeroCache)
      (ReadInstruction fastBuild cacheOn (wordMemory 1)
        (Reset fastBuild (InstructionCache.ctor zeroCache)) 0).2
      (Or.inl rfl)
      (ReachableFrom.read cacheOn (wordMemory 1) 0 (by decide)
        (ReachableFrom.reset ReachableFrom.start))
      cacheOn 0x1000).2.2.2.1 1 (by decide!)⟩

end PowerPC

/-! ## Theorems: lookup tables and the linear scan -/

namespace PowerPC

open InstructionCache

theorem and_mask_of_lt (c : Nat) (hc : c < 128) : c &&& 0x7f = c := by
  have h7 : (0x7f : Nat) = 2 ^ 7 - 1 := by decide
  rw [h7, Nat.and_pow_two_sub_one_eq_mod]
  exact Nat.mod_eq_of_lt hc

theorem tag_index_low (r : Region) (c tag : Nat) :
    tag_index r c tag &&& 0x7f = c &&& 0x7f := by
  unfold tag_index
  rw [index_set]
  apply Nat.eq_of_testBit_eq
  intro i
  have h7 : (0x7f : Nat) = 2 ^ 7 - 1 := by decide
  rw [h7]
  simp only [Nat.testBit_and, Nat.testBit_or, Nat.testBit_mod_two_pow, Nat.testBit_shiftLeft,
    Nat.testBit_two_pow_sub_one]
  by_cases hi : i < 7
  · have h4 : ¬ 7 ≤ i := by omega
    simp [hi, h4]
  · simp [hi]

theorem not_way_valid_of_zero (s : InstructionCache) (c w : Nat) (h : s.valid c = 0) :
    ¬ way_valid s c w := by
  unfold way_valid
  rw [h]
  simp

theorem table_clear_ways_other (b : Build) (c : Nat) (l : List Nat) (r : Region) (i : Nat)
    (hi : i &&& 0x7f ≠ c &&& 0x7f) :
    ∀ s : InstructionCache, table (clear_ways b c l s) r i = table s r i := by
  induction l with
  | nil => intro s; rfl
  | cons a l ih =>
    intro s
    simp only [clear_ways]
    by_cases hv : s.valid c &&& (1 <<< a) ≠ 0
    · rw [if_pos hv, ih, table_lookup_clear, if_neg]
      rintro ⟨_, rfl⟩
      exact hi (tag_index_low r c _)
    · rw [if_neg hv, ih]

theorem LookupFull_of_no_valid (b : Build) (s : InstructionCache) (h : ∀ c, s.valid c = 0) :
    LookupFull b s := by
  intro c w _ hw
  exact absurd hw (not_way_valid_of_zero s c w (h c))

theorem LookupFull_Invalidate (b : Build) (hid : HID0) (s : InstructionCache) (addr : Nat)
    (hf : b.FAST_ICACHE = true) (h : LookupFull b s) :
    LookupFull b (Invalidate b hid s addr) := by
  by_cases hice : hid.ICE = true
  · intro c w hc hw
    by_cases hcs : c = (addr >>> 5) &&& 0x7f
    · exfalso
      apply not_way_valid_of_zero _ c w _ hw
      rw [Invalidate_valid b hid s addr hice, hcs, Function.update_same]
    · have hw1 : way_valid s c w := by
        unfold way_valid at hw ⊢
        rw [Invalidate_valid b hid s addr hice, Function.update_noteq hcs] at hw
        exact hw
      rw [Invalidate_tags, table_Invalidate b hid s addr hf hice, table_clear_ways_other]
      · exact h c w hc hw1
      · rw [tag_index_low, and_mask_of_lt c hc, and_mask_of_lt _ (set_index_lt addr)]
        exact hcs
  · simp only [Bool.not_eq_true] at hice
    rw [Invalidate_off b hid s addr hice]; exact h

theorem LookupFull_touch_way (b : Build) (s : InstructionCache) (addr c t : Nat)
    (h : LookupFull b s) : LookupFull b (touch_way s addr c t).2 := by
  intro c1 w hc hw
  rw [table_touch_way]
  exact h c1 w hc hw

/-- A fill of way 0 in a cache where only way 0 is ever valid. -/
theorem LookupFull_fill_way_zero (b : Build) (mem : Memory) (s : InstructionCache)
    (addr : Nat) (hf : b.FAST_ICACHE = true) (hb : b.Sane) (hw : Wiped s)
    (h : LookupFull b s) :
    LookupFull b (fill_way b mem s addr ((addr >>> 5) &&& 0x7f) (addr >>> 12) 0) := by
  obtain ⟨hV, hE⟩ := hb hf
  intro c w hc hwv
  by_cases hcs : c = (addr >>> 5) &&& 0x7f
  · have hw0 : w = 0 := by
      apply way_valid_zero_of_le_one _ c w _ hwv
      rw [fill_way_valid, hcs, Function.update_same]
      have := hw.2.2 ((addr >>> 5) &&& 0x7f)
      have h01 : s.valid ((addr >>> 5) &&& 0x7f) = 0 ∨ s.valid ((addr >>> 5) &&& 0x7f) = 1 := by
        omega
      rcases h01 with e | e <;> rw [e] <;> decide
    rw [hw0, hcs, fill_way_tags]
    simp only [Function.update_same]
    rw [table_fill_way b mem s addr _ _ _ hf, if_pos]
    exact ⟨region_of_tag_of_addr b addr hV hE, by
      rw [region_of_tag_of_addr b addr hV hE, tag_index_of_addr]⟩
  · have hwv1 : way_valid s c w := by
      unfold way_valid at hwv ⊢
      rw [fill_way_valid, Function.update_noteq hcs] at hwv
      exact hwv
    have hne : c &&& 0x7f ≠ ((addr >>> 5) &&& 0x7f) &&& 0x7f := by
      rw [and_mask_of_lt c hc, and_mask_of_lt _ (set_index_lt addr)]
      exact hcs
    rw [fill_way_tags, Function.update_noteq hcs, table_fill_way b mem s addr _ _ _ hf,
      if_neg, if_neg]
    · exact h c w hc hwv1
    · rintro ⟨_, _, e⟩
      apply hne
      rw [← tag_index_low (region_of_tag b (s.tags c w)) c (s.tags c w), e, tag_index_low]
    · rintro ⟨_, e⟩
      apply hne
      rw [← tag_index_low (region_of_tag b (s.tags c w)) c (s.tags c w), e, index_set,
        and_mask_of_lt _ (set_index_lt addr)]

theorem Reachable_LookupFull (b : Build) (s : InstructionCache) (hf : b.FAST_ICACHE = true)
    (hb : b.Sane) (hs : Reachable b s) : LookupFull b s := by
  induction hs with
  | init raw =>
    apply LookupFull_of_no_valid
    intro c; rw [Init_valid]
  | reset _ ih =>
    apply LookupFull_of_no_valid
    intro c; rw [Reset_valid]
  | invalidate hid addr _ _ ih => exact LookupFull_Invalidate b hid _ addr hf ih
  | @read s0 hid mem addr _ hs0 ih =>
    rcases ReadInstruction_state_cases b hid mem s0 addr with h | h | ⟨_, h⟩
    · rw [h]; exact ih
    · rw [h]; exact LookupFull_touch_way b s0 addr _ _ ih
    · rw [h, select_way_wiped s0 _ (Reachable_Wiped b s0 hs0)]
      apply LookupFull_touch_way
      exact LookupFull_fill_way_zero b mem s0 addr hf hb (Reachable_Wiped b s0 hs0) ih

theorem same_entry_of_tag (b : Build) (hf : b.FAST_ICACHE = true) (hb : b.Sane) (a : Nat) :
    same_entry b a ((a >>> 5) &&& 0x7f) (a >>> 12) := by
  obtain ⟨hV, hE⟩ := hb hf
  exact ⟨region_of_tag_of_addr b a hV hE, tag_index_of_addr _ a⟩

/-- A read after `Init()` installs its line in way 0, and afterwards every
address with the same table and the same masked index resolves to way 0,
whatever its tag. -/
theorem alias_resolves_to_filled_way (b : Build) (hf : b.FAST_ICACHE = true) (x y : Nat)
    (hr : region_of_addr b y = region_of_addr b x)
    (hi : (y >>> 5) &&& (region_of_addr b x).mask = (x >>> 5) &&& (region_of_addr b x).mask) :
    lookup_read b (ReadInstruction b cacheOn (wordMemory 1) (Init b zeroCache) x).2 y = 0 ∧
    way_valid (ReadInstruction b cacheOn (wordMemory 1) (Init b zeroCache) x).2
      ((x >>> 5) &&& 0x7f) 0 ∧
    (ReadInstruction b cacheOn (wordMemory 1) (Init b zeroCache) x).2.tags
      ((x >>> 5) &&& 0x7f) 0 = x >>> 12 := by
  have hsel := select_way_wiped (Init b zeroCache) ((x >>> 5) &&& 0x7f) (Wiped_Init b zeroCache)
  obtain ⟨_, hv, ht, _⟩ := fill_way_zero_result b cacheOn (wordMemory 1) (Init b zeroCache) x
    rfl rfl (resolve_way_Init b zeroCache x) hsel
  refine ⟨?_, hv, ht⟩
  rw [lookup_read_eq, hr, hi,
    ReadInstruction_fill b cacheOn (wordMemory 1) (Init b zeroCache) x rfl
      (resolve_way_Init b zeroCache x) rfl,
    table_touch_way, table_fill_way b (wordMemory 1) _ x _ _ _ hf, if_pos ⟨rfl, rfl⟩, hsel]

/-- Whatever the two region bits are, two of the four addresses `0`, `2^26`,
`2^27` and `2^26 + 2^27` share a lookup-table entry: after `Init()` and a read
of the first, the entry selected for the second names way 0, whose tag is not
the tag of the second. -/
theorem lookup_alias_in_every_build (b : Build) (hf : b.FAST_ICACHE = true) :
    ∃ x y, x < 2 ^ 32 ∧ y < 2 ^ 32 ∧ (x >>> 5) &&& 0x7f = (y >>> 5) &&& 0x7f ∧
      lookup_read b (ReadInstruction b cacheOn (wordMemory 1) (Init b zeroCache) x).2 y = 0 ∧
      way_valid (ReadInstruction b cacheOn (wordMemory 1) (Init b zeroCache) x).2
        ((y >>> 5) &&& 0x7f) 0 ∧
      (ReadInstruction b cacheOn (wordMemory 1) (Init b zeroCache) x).2.tags
        ((y >>> 5) &&& 0x7f) 0 ≠ y >>> 12 := by
  have key : ∀ x y, x < 2 ^ 32 → y < 2 ^ 32 → (x >>> 5) &&& 0x7f = (y >>> 5) &&& 0x7f →
      x >>> 12 ≠ y >>> 12 →
      (∀ r : Region, (y >>> 5) &&& r.mask = (x >>> 5) &&& r.mask) →
      region_of_addr b y = region_of_addr b x →
      ∃ x y, x < 2 ^ 32 ∧ y < 2 ^ 32 ∧ (x >>> 5) &&& 0x7f = (y >>> 5) &&& 0x7f ∧
        lookup_read b (ReadInstruction b cacheOn (wordMemory 1) (Init b zeroCache) x).2 y = 0 ∧
        way_valid (ReadInstruction b cacheOn (wordMemory 1) (Init b zeroCache) x).2
          ((y >>> 5) &&& 0x7f) 0 ∧
        (ReadInstruction b cacheOn (wordMemory 1) (Init b zeroCache) x).2.tags
          ((y >>> 5) &&& 0x7f) 0 ≠ y >>> 12 := by
    intro x y hx hy hset htag hidx hreg
    obtain ⟨h1, h2, h3⟩ := alias_resolves_to_filled_way b hf x y hreg (hidx _)
    refine ⟨x, y, hx, hy, hset, h1, ?_, ?_⟩
    · rw [← hset]; exact h2
    · rw [← hset, h3]; exact htag
  have hmask : ∀ (x y : Nat), x >>> 5 &&& 0x1fffff = 0 → y >>> 5 &&& 0x1fffff = 0 →
      x >>> 5 &&& 0xfffff = 0 → y >>> 5 &&& 0xfffff = 0 →
      ∀ r : Region, (y >>> 5) &&& r.mask = (x >>> 5) &&& r.mask := by
    intro x y h1 h2 h3 h4 r
    cases r
    · show y >>> 5 &&& 0xfffff = x >>> 5 &&& 0xfffff; rw [h3, h4]
    · show y >>> 5 &&& 0x1fffff = x >>> 5 &&& 0x1fffff; rw [h1, h2]
    · show y >>> 5 &&& 0xfffff = x >>> 5 &&& 0xfffff; rw [h3, h4]
  have pigeon : ∀ r0 r1 r2 r3 : Region,
      r1 = r0 ∨ r2 = r0 ∨ r3 = r0 ∨ r2 = r1 ∨ r3 = r1 ∨ r3 = r2 := by
    intro r0 r1 r2 r3
    cases r0 <;> cases r1 <;> cases r2 <;> cases r3 <;> simp
  rcases pigeon (region_of_addr b 0) (region_of_addr b 0x4000000)
      (region_of_addr b 0x8000000) (region_of_addr b 0xc000000) with h | h | h | h | h | h
  · exact key 0 0x4000000 (by decide) (by decide) (by decide) (by decide)
      (hmask _ _ (by decide) (by decide) (by decide) (by decide)) h
  · exact key 0 0x8000000 (by decide) (by decide) (by decide) (by decide)
      (hmask _ _ (by decide) (by decide) (by decide) (by decide)) h
  · exact key 0 0xc000000 (by decide) (by decide) (by decide) (by decide)
      (hmask _ _ (by decide) (by decide) (by decide) (by decide)) h
  · exact key 0x4000000 0x8000000 (by decide) (by decide) (by decide) (by decide)
      (hmask _ _ (by decide) (by decide) (by decide) (by decide)) h
  · exact key 0x4000000 0xc000000 (by decide) (by decide) (by decide) (by decide)
      (hmask _ _ (by decide) (by decide) (by decide) (by decide)) h
  · exact key 0x8000000 0xc000000 (by decide) (by decide) (by decide) (by decide)
      (hmask _ _ (by decide) (by decide) (by decide) (by decide)) h

/-- C15, as stated, fails: in the `FAST_ICACHE` state reached by `Init()` and
a read of `0x80000000`, the lookup-table entry selected for address 0 is 0,
not the sentinel, and way 0 of set 0 is valid, but its tag is `0x80000`, not
`0 >> 12`, and the linear scan for address 0 finds no way. -/
theorem lookup_entry_shared_by_aliases :
    Reachable fastBuild
      (ReadInstruction fastBuild cacheOn (wordMemory 1) (Init fastBuild zeroCache)
        0x80000000).2 ∧
    lookup_read fastBuild
      (ReadInstruction fastBuild cacheOn (wordMemory 1) (Init fastBuild zeroCache)
        0x80000000).2 0 = 0 ∧
    way_valid
      (ReadInstruction fastBuild cacheOn (wordMemory 1) (Init fastBuild zeroCache)
        0x80000000).2 ((0 >>> 5) &&& 0x7f) 0 ∧
    (ReadInstruction fastBuild cacheOn (wordMemory 1) (Init fastBuild zeroCache)
        0x80000000).2.tags ((0 >>> 5) &&& 0x7f) 0 = 0x80000 ∧
    (0x80000 : Nat) ≠ 0 >>> 12 ∧
    scan_way
      (ReadInstruction fastBuild cacheOn (wordMemory 1) (Init fastBuild zeroCache)
        0x80000000).2 ((0 >>> 5) &&& 0x7f) (0 >>> 12) = 0xff :=
  ⟨Reachable.read cacheOn (wordMemory 1) 0x80000000 (by decide) (Reachable.init zeroCache),
    by decide!, by decide!, by decide!, by decide, by decide!⟩

/-- C15, amended: in the `FAST_ICACHE` build, in every cache state reachable
from `Init()`, for every guest address `a`: when the lookup-table entry
selected for `a` is not the sentinel it names a way below 8 of set
`(a>>5)&0x7f` that is valid and whose tag owns that same entry (same table,
same masked index), so the tag agrees with `a>>12` on the address bits the
index keeps; and when a valid way of the set owns the entry, in particular
when it carries the tag `a>>12`, the entry names that way, so the lookup
agrees with the linear scan whenever the scan finds a way. -/
theorem lookup_entry_names_its_owner (b : Build) (hf : b.FAST_ICACHE = true) (hb : b.Sane)
    (s : InstructionCache) (hs : Reachable b s) (a : Nat) :
    (lookup_read b s a ≠ 0xff →
      lookup_read b s a < 8 ∧
      way_valid s ((a >>> 5) &&& 0x7f) (lookup_read b s a) ∧
      same_entry b a ((a >>> 5) &&& 0x7f) (s.tags ((a >>> 5) &&& 0x7f) (lookup_read b s a))) ∧
    (∀ w, way_valid s ((a >>> 5) &&& 0x7f) w →
      same_entry b a ((a >>> 5) &&& 0x7f) (s.tags ((a >>> 5) &&& 0x7f) w) →
      lookup_read b s a = w) ∧
    (∀ w, way_valid s ((a >>> 5) &&& 0x7f) w → s.tags ((a >>> 5) &&& 0x7f) w = a >>> 12 →
      lookup_read b s a = w) ∧
    (scan_way s ((a >>> 5) &&& 0x7f) (a >>> 12) ≠ 0xff →
      lookup_read b s a = scan_way s ((a >>> 5) &&& 0x7f) (a >>> 12)) := by
  have hfull := Reachable_LookupFull b s hf hb hs
  have hown : ∀ w, way_valid s ((a >>> 5) &&& 0x7f) w →
      same_entry b a ((a >>> 5) &&& 0x7f) (s.tags ((a >>> 5) &&& 0x7f) w) →
      lookup_read b s a = w := by
    intro w hw hsame
    have h := hfull _ w (set_index_lt a) hw
    rw [hsame.1, hsame.2] at h
    rw [lookup_read_eq]
    exact h
  have htag : ∀ w, way_valid s ((a >>> 5) &&& 0x7f) w →
      s.tags ((a >>> 5) &&& 0x7f) w = a >>> 12 → lookup_read b s a = w := by
    intro w hw ht
    apply hown w hw
    rw [ht]
    exact same_entry_of_tag b hf hb a
  refine ⟨?_, hown, htag, ?_⟩
  · intro hne
    rw [lookup_read_eq] at hne ⊢
    obtain ⟨h8, hv, hreg, hidx⟩ := Reachable_LookupOK b s hf hb hs _ _ hne
    rw [index_set] at hv hreg hidx
    exact ⟨h8, hv, hreg, hidx⟩
  · intro hscan
    rcases scan_way_cases s ((a >>> 5) &&& 0x7f) (a >>> 12) with hc | hc
    · exact absurd hc.1 hscan
    · exact htag _ hc.2.2 hc.2.1

theorem lookup_entry_names_its_owner_witness :
    lookup_read fastBuild
      (ReadInstruction fastBuild cacheOn (wordMemory 1) (Init fastBuild zeroCache)
        0x80003104).2 0x80003118 = 0 ∧
    scan_way
      (ReadInstruction fastBuild cacheOn (wordMemory 1) (Init fastBuild zeroCache)
        0x80003104).2 ((0x80003118 >>> 5) &&& 0x7f) (0x80003118 >>> 12) = 0 :=
  ⟨(lookup_entry_names_its_owner fastBuild rfl (fun _ => ⟨by decide, by decide⟩)
      (ReadInstruction fastBuild cacheOn (wordMemory 1) (Init fastBuild zeroCache)
        0x80003104).2
      (Reachable.read cacheOn (wordMemory 1) 0x80003104 (by decide) (Reachable.init zeroCache))
      0x80003118).2.2.1 0 (by decide!) (by decide!),
    by decide!⟩

end PowerPC
